import Mathlib

/-!
Simba: the NMEA sentence codec, the socket stub of the HTTP server tests and
the signal analyzer example.

A shallow embedding of `src/encode/nmea.c`, of
`tst/inet/http_server/socket_stub.c` and of
`examples/signal_analyzer/main.c`, with the properties proved about them.

Conventions of the embedding

* A C `char` is a Lean `Char`; its byte value is `Char.toNat` taken modulo 256.
* A `char *` that is only read (a field of a sentence handed to `nmea_encode`)
  is the list of characters of the C string it points to, terminator excluded.
* A buffer that is written (the source buffer of `nmea_decode`) is a
  `List Char` holding the bytes of the buffer; a pointer into it is an offset,
  `none` being `NULL`.  A read outside the buffer is undefined behaviour and
  makes the embedded function return `none`.
* A function returning `ssize_t` returns `ssize_t.val n` for the value `n >= 0`
  and `ssize_t.neg e` for the value `-e`.
-/

namespace Nmea

/-! ## Result values -/

/-- The error numbers used by the codec (their numeric values are declared
outside `nmea.c` and play no role). -/
inductive errno_t
  | EPROTO
  | ENOSYS
  deriving DecidableEq, Repr

/-- A value of type `ssize_t` (or `int`) as returned by the codec:
a non-negative number or a negated error number. -/
inductive ssize_t
  | val (n : Nat)
  | neg (e : errno_t)
  deriving DecidableEq, Repr

/-! ## Sentences

The structures follow the member accesses of `nmea.c`; `α` is the type of a
`char *` member: `List Char` for a sentence to encode, `Option Nat` (offset
into the decoded buffer) for a decoded sentence. -/

/-- The `struct nmea_position_t`: an angle and a direction. -/
structure nmea_position_t (α : Type) where
  angle_p : α
  direction_p : α
  deriving DecidableEq, Repr

/-- A member with `value_p` and `unit_p` (altitude, height of geoid, ground speed). -/
structure nmea_value_unit_t (α : Type) where
  value_p : α
  unit_p : α
  deriving DecidableEq, Repr

/-- A member with `value_p` and `relative_to_p` (track made good). -/
structure nmea_track_t (α : Type) where
  value_p : α
  relative_to_p : α
  deriving DecidableEq, Repr

/-- One element of `gsv.satellites`. -/
structure nmea_satellite_t (α : Type) where
  prn_p : α
  elevation_p : α
  azimuth_p : α
  snr_p : α
  deriving DecidableEq, Repr

/-- The `struct nmea_sentence_raw_t`. -/
structure nmea_sentence_raw_t (α : Type) where
  str_p : α
  deriving DecidableEq, Repr

/-- The `struct nmea_sentence_gga_t`. -/
structure nmea_sentence_gga_t (α : Type) where
  time_of_fix_p : α
  latitude : nmea_position_t α
  longitude : nmea_position_t α
  fix_quality_p : α
  number_of_tracked_satellites_p : α
  horizontal_dilution_of_position_p : α
  altitude : nmea_value_unit_t α
  height_of_geoid : nmea_value_unit_t α
  deriving DecidableEq, Repr

/-- The `struct nmea_sentence_gll_t`. -/
structure nmea_sentence_gll_t (α : Type) where
  latitude : nmea_position_t α
  longitude : nmea_position_t α
  time_of_fix_p : α
  data_active_p : α
  deriving DecidableEq, Repr

/-- The `struct nmea_sentence_gsa_t`; `prns` is an array of 12 members. -/
structure nmea_sentence_gsa_t (α : Type) where
  selection_p : α
  fix_p : α
  prns : Fin 12 → α
  pdop_p : α
  hdop_p : α
  vdop_p : α

/-- The `struct nmea_sentence_gsv_t`; `satellites` is an array of 4 members. -/
structure nmea_sentence_gsv_t (α : Type) where
  number_of_sentences_p : α
  sentence_p : α
  number_of_satellites_p : α
  satellites : Fin 4 → nmea_satellite_t α

/-- The `struct nmea_sentence_rmc_t`. -/
structure nmea_sentence_rmc_t (α : Type) where
  time_of_fix_p : α
  status_p : α
  latitude : nmea_position_t α
  longitude : nmea_position_t α
  speed_knots_p : α
  track_angle_p : α
  date_p : α
  magnetic_variation : nmea_position_t α
  deriving DecidableEq, Repr

/-- The `struct nmea_sentence_vtg_t`. -/
structure nmea_sentence_vtg_t (α : Type) where
  track_made_good_true : nmea_track_t α
  track_made_good_magnetic : nmea_track_t α
  ground_speed_knots : nmea_value_unit_t α
  ground_speed_kmph : nmea_value_unit_t α
  deriving DecidableEq, Repr

/-- The values of the member `type` of a sentence: the seven enumerators that
`nmea.c` names, and `other v` for any other value `v` the member may hold. -/
inductive nmea_sentence_type_t
  | raw
  | gga
  | gll
  | gsa
  | gsv
  | rmc
  | vtg
  | other (v : Nat)
  deriving DecidableEq, Repr

/-- The `struct nmea_sentence_t`: the member `type` together with the member
of the union that `type` selects.  A sentence whose `type` is none of the
seven enumerators carries no member. -/
inductive nmea_sentence_t (α : Type)
  | raw (s : nmea_sentence_raw_t α)
  | gga (s : nmea_sentence_gga_t α)
  | gll (s : nmea_sentence_gll_t α)
  | gsa (s : nmea_sentence_gsa_t α)
  | gsv (s : nmea_sentence_gsv_t α)
  | rmc (s : nmea_sentence_rmc_t α)
  | vtg (s : nmea_sentence_vtg_t α)
  | other (v : Nat)

/-- The member `type` of a sentence. -/
def nmea_sentence_t.type {α : Type} : nmea_sentence_t α → nmea_sentence_type_t
  | .raw _ => .raw
  | .gga _ => .gga
  | .gll _ => .gll
  | .gsa _ => .gsa
  | .gsv _ => .gsv
  | .rmc _ => .rmc
  | .vtg _ => .vtg
  | .other v => .other v

/-- The members of a satellite, in declaration order. -/
def nmea_satellite_t.fields {α : Type} (s : nmea_satellite_t α) : List α :=
  [s.prn_p, s.elevation_p, s.azimuth_p, s.snr_p]

/-- The `char *` members of a sentence, in the order in which the encoder
prints them and the decoder assigns them. -/
def nmea_sentence_t.fields {α : Type} : nmea_sentence_t α → List α
  | .raw s => [s.str_p]
  | .gga s =>
    [s.time_of_fix_p, s.latitude.angle_p, s.latitude.direction_p,
     s.longitude.angle_p, s.longitude.direction_p, s.fix_quality_p,
     s.number_of_tracked_satellites_p, s.horizontal_dilution_of_position_p,
     s.altitude.value_p, s.altitude.unit_p,
     s.height_of_geoid.value_p, s.height_of_geoid.unit_p]
  | .gll s =>
    [s.latitude.angle_p, s.latitude.direction_p,
     s.longitude.angle_p, s.longitude.direction_p,
     s.time_of_fix_p, s.data_active_p]
  | .gsa s =>
    [s.selection_p, s.fix_p,
     s.prns 0, s.prns 1, s.prns 2, s.prns 3, s.prns 4, s.prns 5,
     s.prns 6, s.prns 7, s.prns 8, s.prns 9, s.prns 10, s.prns 11,
     s.pdop_p, s.hdop_p, s.vdop_p]
  | .gsv s =>
    [s.number_of_sentences_p, s.sentence_p, s.number_of_satellites_p]
      ++ (s.satellites 0).fields ++ (s.satellites 1).fields
      ++ (s.satellites 2).fields ++ (s.satellites 3).fields
  | .rmc s =>
    [s.time_of_fix_p, s.status_p, s.latitude.angle_p, s.latitude.direction_p,
     s.longitude.angle_p, s.longitude.direction_p, s.speed_knots_p,
     s.track_angle_p, s.date_p,
     s.magnetic_variation.angle_p, s.magnetic_variation.direction_p]
  | .vtg s =>
    [s.track_made_good_true.value_p, s.track_made_good_true.relative_to_p,
     s.track_made_good_magnetic.value_p, s.track_made_good_magnetic.relative_to_p,
     s.ground_speed_knots.value_p, s.ground_speed_knots.unit_p,
     s.ground_speed_kmph.value_p, s.ground_speed_kmph.unit_p]
  | .other _ => []

/-! ## Library routines used by the codec -/

/-- Modelled from the spec: `std_sprintf` is missing from `src/`, and the
specification does not describe it; it is read by the C meaning of its format
strings, of which the codec uses the directive `%s` only (and `%02x`, see
`std_sprintf_02x`).  The output is the format with every `%s` replaced by
the next argument string; the value returned by `std_sprintf` is the length
of this output. -/
def std_sprintf : List Char → List (List Char) → List Char
  | '%' :: 's' :: fmt, arg :: args => arg ++ std_sprintf fmt args
  | c :: fmt, args => c :: std_sprintf fmt args
  | [], _ => []

/-- The lower-case hexadecimal digit of a value below 16. -/
def hex_digit (d : Nat) : Char :=
  if d < 10 then Char.ofNat (48 + d) else Char.ofNat (87 + d)

/-- Modelled from the spec: `std_sprintf` (missing from `src/`) with the
format `%02x` applied to a `uint8_t`, read by the C meaning of the directive:
two lower-case hexadecimal digits, the first one `0` for a value below 16. -/
def std_sprintf_02x (crc : Nat) : List Char :=
  [hex_digit (crc / 16 % 16), hex_digit (crc % 16)]

/-- The C library `toupper` on the characters of the C locale. -/
def toupper (c : Char) : Char := c.toUpper

/-! ## The encoder -/

/-- The function `calculate_crc` of `nmea.c`; `buf` holds the `size` bytes
starting at `buf_p`.  The accumulator is a `uint8_t`. -/
def calculate_crc (buf : List Char) : Nat :=
  buf.foldl (fun crc c => (crc ^^^ c.toNat) % 256) 0

/-- The function `encode_raw`. -/
def encode_raw (src_p : nmea_sentence_raw_t (List Char)) : List Char :=
  std_sprintf "%s".toList [src_p.str_p]

/-- The function `encode_gga`. -/
def encode_gga (src_p : nmea_sentence_gga_t (List Char)) : List Char :=
  std_sprintf "GPGGA,%s,%s,%s,%s,%s,%s,%s,%s,%s,%s,%s,%s,,".toList
    [src_p.time_of_fix_p,
     src_p.latitude.angle_p,
     src_p.latitude.direction_p,
     src_p.longitude.angle_p,
     src_p.longitude.direction_p,
     src_p.fix_quality_p,
     src_p.number_of_tracked_satellites_p,
     src_p.horizontal_dilution_of_position_p,
     src_p.altitude.value_p,
     src_p.altitude.unit_p,
     src_p.height_of_geoid.value_p,
     src_p.height_of_geoid.unit_p]

/-- The function `encode_gll`. -/
def encode_gll (src_p : nmea_sentence_gll_t (List Char)) : List Char :=
  std_sprintf "GPGLL,%s,%s,%s,%s,%s,%s,".toList
    [src_p.latitude.angle_p,
     src_p.latitude.direction_p,
     src_p.longitude.angle_p,
     src_p.longitude.direction_p,
     src_p.time_of_fix_p,
     src_p.data_active_p]

/-- The function `encode_gsa`. -/
def encode_gsa (src_p : nmea_sentence_gsa_t (List Char)) : List Char :=
  std_sprintf "GPGSA,%s,%s,%s,%s,%s,%s,%s,%s,%s,%s,%s,%s,%s,%s,%s,%s,%s".toList
    [src_p.selection_p,
     src_p.fix_p,
     src_p.prns 0,
     src_p.prns 1,
     src_p.prns 2,
     src_p.prns 3,
     src_p.prns 4,
     src_p.prns 5,
     src_p.prns 6,
     src_p.prns 7,
     src_p.prns 8,
     src_p.prns 9,
     src_p.prns 10,
     src_p.prns 11,
     src_p.pdop_p,
     src_p.hdop_p,
     src_p.vdop_p]

/-- The function `encode_gsv`. -/
def encode_gsv (src_p : nmea_sentence_gsv_t (List Char)) : List Char :=
  std_sprintf
    "GPGSV,%s,%s,%s,%s,%s,%s,%s,%s,%s,%s,%s,%s,%s,%s,%s,%s,%s,%s,%s".toList
    [src_p.number_of_sentences_p,
     src_p.sentence_p,
     src_p.number_of_satellites_p,
     (src_p.satellites 0).prn_p,
     (src_p.satellites 0).elevation_p,
     (src_p.satellites 0).azimuth_p,
     (src_p.satellites 0).snr_p,
     (src_p.satellites 1).prn_p,
     (src_p.satellites 1).elevation_p,
     (src_p.satellites 1).azimuth_p,
     (src_p.satellites 1).snr_p,
     (src_p.satellites 2).prn_p,
     (src_p.satellites 2).elevation_p,
     (src_p.satellites 2).azimuth_p,
     (src_p.satellites 2).snr_p,
     (src_p.satellites 3).prn_p,
     (src_p.satellites 3).elevation_p,
     (src_p.satellites 3).azimuth_p,
     (src_p.satellites 3).snr_p]

/-- The function `encode_rmc`. -/
def encode_rmc (src_p : nmea_sentence_rmc_t (List Char)) : List Char :=
  std_sprintf "GPRMC,%s,%s,%s,%s,%s,%s,%s,%s,%s,%s,%s".toList
    [src_p.time_of_fix_p,
     src_p.status_p,
     src_p.latitude.angle_p,
     src_p.latitude.direction_p,
     src_p.longitude.angle_p,
     src_p.longitude.direction_p,
     src_p.speed_knots_p,
     src_p.track_angle_p,
     src_p.date_p,
     src_p.magnetic_variation.angle_p,
     src_p.magnetic_variation.direction_p]

/-- The function `encode_vtg`. -/
def encode_vtg (src_p : nmea_sentence_vtg_t (List Char)) : List Char :=
  std_sprintf "GPVTG,%s,%s,%s,%s,%s,%s,%s,%s".toList
    [src_p.track_made_good_true.value_p,
     src_p.track_made_good_true.relative_to_p,
     src_p.track_made_good_magnetic.value_p,
     src_p.track_made_good_magnetic.relative_to_p,
     src_p.ground_speed_knots.value_p,
     src_p.ground_speed_knots.unit_p,
     src_p.ground_speed_kmph.value_p,
     src_p.ground_speed_kmph.unit_p]

/-- The type specific contents of a sentence: the `switch` of `nmea_encode`,
`none` for its `default` branch. -/
def encode_body : nmea_sentence_t (List Char) → Option (List Char)
  | .raw s => some (encode_raw s)
  | .gga s => some (encode_gga s)
  | .gll s => some (encode_gll s)
  | .gsa s => some (encode_gsa s)
  | .gsv s => some (encode_gsv s)
  | .rmc s => some (encode_rmc s)
  | .vtg s => some (encode_vtg s)
  | .other _ => none

/-- Writing the characters `cs` into a buffer from index `i` on; the buffer
grows when the write reaches past its end. -/
def store (dst : List Char) (i : Nat) (cs : List Char) : List Char :=
  dst.take i ++ cs ++ dst.drop (i + cs.length)

/-- The function `nmea_encode`: the value returned and the bytes written to
`dst_p`, from index 0 on.  Every `std_sprintf` call writes its output and a
terminating NUL. -/
def nmea_encode (src_p : nmea_sentence_t (List Char)) : ssize_t × List Char :=
  let dst := store [] 0 ['$']
  match encode_body src_p with
  | none => (ssize_t.neg errno_t.ENOSYS, dst)
  | some body =>
    let res := body.length
    let dst := store dst 1 (body ++ ['\x00'])
    let dst := store dst (res + 1) ['*']
    let crc := calculate_crc ((dst.drop 1).take res)
    let dst := store dst (res + 2) (std_sprintf_02x crc ++ ['\x00'])
    let dst := store dst (res + 2) [toupper (dst.getD (res + 2) '\x00')]
    let dst := store dst (res + 3) [toupper (dst.getD (res + 3) '\x00')]
    let dst := store dst (res + 4) ['\r']
    let dst := store dst (res + 5) ['\n']
    let dst := store dst (res + 6) ['\x00']
    (ssize_t.val (res + 6), dst)

/-! ## The decoder -/

/-- The scan of the C library `strsep`: the offset of the first character that
is a NUL or one of `delim`, and whether it is a delimiter; `none` when the
scan leaves the buffer. -/
def strsep_scan (delim : List Char) : List Char → Option (Nat × Bool)
  | [] => none
  | c :: cs =>
    if c = '\x00' then some (0, false)
    else if c ∈ delim then some (0, true)
    else match strsep_scan delim cs with
      | some (k, b) => some (k + 1, b)
      | none => none

/-- The C library `strsep(&stringp, delim)` on the buffer `mem`: the token
returned, the buffer and `stringp` afterwards.  With `stringp` equal to
`NULL` it returns `NULL`; else it returns the old `stringp`, overwrites the
first delimiter with a NUL and moves `stringp` behind it, or sets `stringp` to
`NULL` when the string holds no delimiter. -/
def strsep (mem : List Char) (stringp : Option Nat) (delim : List Char) :
    Option (Option Nat × List Char × Option Nat) :=
  match stringp with
  | none => some (none, mem, none)
  | some s =>
    match strsep_scan delim (mem.drop s) with
    | none => none
    | some (k, true) => some (some s, mem.set (s + k) '\x00', some (s + k + 1))
    | some (_, false) => some (some s, mem, none)

/-- The characters before the first NUL of a buffer suffix; `none` when the
suffix holds no NUL. -/
def c_str_scan : List Char → Option (List Char)
  | [] => none
  | c :: cs =>
    if c = '\x00' then some []
    else match c_str_scan cs with
      | some s => some (c :: s)
      | none => none

/-- The C string a pointer into the buffer points to. -/
def c_str (mem : List Char) : Option Nat → Option (List Char)
  | none => none
  | some p => c_str_scan (mem.drop p)

/-- The computations of a `decode_*` function: they act on the buffer and on
the local variable `src_p`, and are undefined (`none`) when a read leaves the
buffer. -/
def decode_m (α : Type) : Type :=
  List Char × Option Nat → Option (α × (List Char × Option Nat))

/-- Sequencing of two steps of a `decode_*` function. -/
@[noinline] def decode_m.bind {α β : Type} (x : decode_m α) (f : α → decode_m β) :
    decode_m β :=
  fun st =>
    match x st with
    | none => none
    | some (a, st) => f a st

/-- A step that only yields a value. -/
def decode_m.pure {α : Type} (a : α) : decode_m α :=
  fun st => some (a, st)

instance : Monad decode_m where
  pure := decode_m.pure
  bind := decode_m.bind

/-- The call `strsep(&src_p, delim)` inside a `decode_*` function. -/
def strsep_m (delim : List Char) : decode_m (Option Nat) :=
  fun st =>
    match strsep st.1 st.2 delim with
    | none => none
    | some (tok, mem, src_p) => some (tok, (mem, src_p))

/-- Reading the local variable `src_p`. -/
def get_src_p : decode_m (Option Nat) :=
  fun st => some (st.2, st)

/-- The calls `strsep(&src_p, d)` for the delimiter strings `d` of a list, in
order; the tokens returned. -/
def strsep_seq : List (List Char) → decode_m (List (Option Nat))
  | [] => pure []
  | d :: ds => do
    let tok ← strsep_m d
    let toks ← strsep_seq ds
    pure (tok :: toks)

/-- The end of every `decode_*` function: `-EPROTO` when `src_p` is `NULL`,
else 0. -/
def all_values_parsed (src_p : Option Nat) : ssize_t :=
  if src_p = none then ssize_t.neg errno_t.EPROTO else ssize_t.val 0

/-- The function `decode_raw`, called with the string at offset `src_p` and
its length `size`: it overwrites `src_p[size - 1]`. -/
def decode_raw (mem : List Char) (src_p : Nat) (size : Nat) :
    Option (ssize_t × List Char × nmea_sentence_t (Option Nat)) :=
  if 1 ≤ size ∧ src_p + (size - 1) < mem.length then
    some (ssize_t.val 0, mem.set (src_p + (size - 1)) '\x00',
      nmea_sentence_t.raw { str_p := some src_p })
  else none

/-- The function `decode_gga`. -/
def decode_gga : decode_m (ssize_t × nmea_sentence_t (Option Nat)) := do
  let time_of_fix_p ← strsep_m [',']
  let latitude_angle_p ← strsep_m [',']
  let latitude_direction_p ← strsep_m [',']
  let longitude_angle_p ← strsep_m [',']
  let longitude_direction_p ← strsep_m [',']
  let fix_quality_p ← strsep_m [',']
  let number_of_tracked_satellites_p ← strsep_m [',']
  let horizontal_dilution_of_position_p ← strsep_m [',']
  let altitude_value_p ← strsep_m [',']
  let altitude_unit_p ← strsep_m [',']
  let height_of_geoid_value_p ← strsep_m [',']
  let height_of_geoid_unit_p ← strsep_m [',']
  let _ ← strsep_m [',']
  let _ ← strsep_m ['*']
  let src_p ← get_src_p
  pure (all_values_parsed src_p, nmea_sentence_t.gga {
    time_of_fix_p := time_of_fix_p
    latitude := ⟨latitude_angle_p, latitude_direction_p⟩
    longitude := ⟨longitude_angle_p, longitude_direction_p⟩
    fix_quality_p := fix_quality_p
    number_of_tracked_satellites_p := number_of_tracked_satellites_p
    horizontal_dilution_of_position_p := horizontal_dilution_of_position_p
    altitude := ⟨altitude_value_p, altitude_unit_p⟩
    height_of_geoid := ⟨height_of_geoid_value_p, height_of_geoid_unit_p⟩ })

/-- The function `decode_gll`. -/
def decode_gll : decode_m (ssize_t × nmea_sentence_t (Option Nat)) := do
  let latitude_angle_p ← strsep_m [',']
  let latitude_direction_p ← strsep_m [',']
  let longitude_angle_p ← strsep_m [',']
  let longitude_direction_p ← strsep_m [',']
  let time_of_fix_p ← strsep_m [',']
  let data_active_p ← strsep_m [',']
  let _ ← strsep_m ['*']
  let src_p ← get_src_p
  pure (all_values_parsed src_p, nmea_sentence_t.gll {
    latitude := ⟨latitude_angle_p, latitude_direction_p⟩
    longitude := ⟨longitude_angle_p, longitude_direction_p⟩
    time_of_fix_p := time_of_fix_p
    data_active_p := data_active_p })

/-- The function `decode_gsa`; its loop over the 12 members of `prns` is the
sequence of 12 calls `strsep(&src_p, ",")`. -/
def decode_gsa : decode_m (ssize_t × nmea_sentence_t (Option Nat)) := do
  let selection_p ← strsep_m [',']
  let fix_p ← strsep_m [',']
  let prns ← strsep_seq (List.replicate 12 [','])
  let pdop_p ← strsep_m [',']
  let hdop_p ← strsep_m [',']
  let vdop_p ← strsep_m ['*']
  let src_p ← get_src_p
  pure (all_values_parsed src_p, nmea_sentence_t.gsa {
    selection_p := selection_p
    fix_p := fix_p
    prns := fun i => prns.getD i.val none
    pdop_p := pdop_p
    hdop_p := hdop_p
    vdop_p := vdop_p })

/-- The body of the loop of `decode_gsv` for the satellite of index `i`. -/
def decode_gsv_satellite (i : Nat) : decode_m (nmea_satellite_t (Option Nat)) := do
  let prn_p ← strsep_m [',']
  let elevation_p ← strsep_m [',']
  let azimuth_p ← strsep_m [',']
  let snr_p ← if i < 4 - 1 then strsep_m [','] else strsep_m ['*']
  pure ⟨prn_p, elevation_p, azimuth_p, snr_p⟩

/-- A loop whose body is run for the indices of a list, in order. -/
def for_each {α : Type} (body : Nat → decode_m α) : List Nat → decode_m (List α)
  | [] => pure []
  | i :: is => do
    let a ← body i
    let as ← for_each body is
    pure (a :: as)

/-- The function `decode_gsv`; `satellites` has 4 members. -/
def decode_gsv : decode_m (ssize_t × nmea_sentence_t (Option Nat)) := do
  let number_of_sentences_p ← strsep_m [',']
  let sentence_p ← strsep_m [',']
  let number_of_satellites_p ← strsep_m [',']
  let satellites ← for_each decode_gsv_satellite [0, 1, 2, 3]
  let src_p ← get_src_p
  pure (all_values_parsed src_p, nmea_sentence_t.gsv {
    number_of_sentences_p := number_of_sentences_p
    sentence_p := sentence_p
    number_of_satellites_p := number_of_satellites_p
    satellites := fun i => satellites.getD i.val ⟨none, none, none, none⟩ })

/-- The function `decode_vtg`. -/
def decode_vtg : decode_m (ssize_t × nmea_sentence_t (Option Nat)) := do
  let track_made_good_true_value_p ← strsep_m [',']
  let track_made_good_true_relative_to_p ← strsep_m [',']
  let track_made_good_magnetic_value_p ← strsep_m [',']
  let track_made_good_magnetic_relative_to_p ← strsep_m [',']
  let ground_speed_knots_value_p ← strsep_m [',']
  let ground_speed_knots_unit_p ← strsep_m [',']
  let ground_speed_kmph_value_p ← strsep_m [',']
  let ground_speed_kmph_unit_p ← strsep_m ['*']
  let src_p ← get_src_p
  pure (all_values_parsed src_p, nmea_sentence_t.vtg {
    track_made_good_true :=
      ⟨track_made_good_true_value_p, track_made_good_true_relative_to_p⟩
    track_made_good_magnetic :=
      ⟨track_made_good_magnetic_value_p, track_made_good_magnetic_relative_to_p⟩
    ground_speed_knots := ⟨ground_speed_knots_value_p, ground_speed_knots_unit_p⟩
    ground_speed_kmph := ⟨ground_speed_kmph_value_p, ground_speed_kmph_unit_p⟩ })

/-- The function `decode_rmc`. -/
def decode_rmc : decode_m (ssize_t × nmea_sentence_t (Option Nat)) := do
  let time_of_fix_p ← strsep_m [',']
  let status_p ← strsep_m [',']
  let latitude_angle_p ← strsep_m [',']
  let latitude_direction_p ← strsep_m [',']
  let longitude_angle_p ← strsep_m [',']
  let longitude_direction_p ← strsep_m [',']
  let speed_knots_p ← strsep_m [',']
  let track_angle_p ← strsep_m [',']
  let date_p ← strsep_m [',']
  let magnetic_variation_angle_p ← strsep_m [',']
  let magnetic_variation_direction_p ← strsep_m ['*']
  let src_p ← get_src_p
  pure (all_values_parsed src_p, nmea_sentence_t.rmc {
    time_of_fix_p := time_of_fix_p
    status_p := status_p
    latitude := ⟨latitude_angle_p, latitude_direction_p⟩
    longitude := ⟨longitude_angle_p, longitude_direction_p⟩
    speed_knots_p := speed_knots_p
    track_angle_p := track_angle_p
    date_p := date_p
    magnetic_variation := ⟨magnetic_variation_angle_p, magnetic_variation_direction_p⟩ })

/-- The element index `size - k` computed in the unsigned type `size_t`:
for `size < k` the subtraction wraps around and the element lies outside the
buffer. -/
def size_minus (size k : Nat) : Option Nat :=
  if k ≤ size then some (size - k) else none

/-- The test `src_p[i] != c`. -/
def differs_at (src : List Char) (i : Option Nat) (c : Char) : Option Bool :=
  match i with
  | none => none
  | some i =>
    match src[i]? with
    | none => none
    | some x => some (decide (x ≠ c))

/-- The operator `||` of C: the right operand is evaluated only when the left
one is false. -/
def c_or (a b : Option Bool) : Option Bool :=
  match a with
  | none => none
  | some true => some true
  | some false => b

/-- The condition of the basic validation of `nmea_decode`. -/
def basic_validation_fails (src : List Char) (size : Nat) : Option Bool :=
  c_or (differs_at src (some 0) '$')
    (c_or (differs_at src (some 1) 'G')
      (c_or (differs_at src (size_minus size 5) '*')
        (c_or (differs_at src (size_minus size 2) '\r')
          (c_or (differs_at src (size_minus size 1) '\n')
            (differs_at src (some size) '\x00')))))

/-- The call of a `decode_*` function on the buffer with `src_p` at the
offset given. -/
def run_decode (d : decode_m (ssize_t × nmea_sentence_t (Option Nat)))
    (mem : List Char) (src_p : Nat) :
    Option (ssize_t × List Char × Option (nmea_sentence_t (Option Nat))) :=
  match d (mem, some src_p) with
  | none => none
  | some ((res, dst), (mem, _)) => some (res, mem, some dst)

/-- The C library `memcmp(&src_p[i], tag, 4) == 0`. -/
def memcmp4_eq (src : List Char) (i : Nat) (tag : List Char) : Bool :=
  (src.drop i).take 4 = tag

/-- The function `nmea_decode`: the value returned, the buffer afterwards and
the sentence written to `dst_p` (`none` when `dst_p` is left untouched).

The routine `std_strtolb` is defined outside `src/` and is a parameter: it is
given the C string to convert and the base, and yields `none` for `NULL` or
the value converted and the number of characters consumed. -/
def nmea_decode (std_strtolb : List Char → Nat → Option (Int × Nat))
    (src : List Char) (size : Nat) :
    Option (ssize_t × List Char × Option (nmea_sentence_t (Option Nat))) :=
  match basic_validation_fails src size with
  | none => none
  | some true => some (ssize_t.neg errno_t.EPROTO, src, none)
  | some false =>
    let actual_crc := calculate_crc ((src.drop 1).take (size - 6))
    match c_str src (some (size - 4)) with
    | none => none
    | some crc_str =>
      match std_strtolb crc_str 16 with
      | none => some (ssize_t.neg errno_t.EPROTO, src, none)
      | some (expected_crc, end_p) =>
        if end_p ≠ 2 then some (ssize_t.neg errno_t.EPROTO, src, none)
        else if (actual_crc : Int) ≠ expected_crc then
          some (ssize_t.neg errno_t.EPROTO, src, none)
        else
          let size := size - 5
          if memcmp4_eq src 3 "GGA,".toList then run_decode decode_gga src 7
          else if memcmp4_eq src 3 "GLL,".toList then run_decode decode_gll src 7
          else if memcmp4_eq src 3 "GSA,".toList then run_decode decode_gsa src 7
          else if memcmp4_eq src 3 "GSV,".toList then run_decode decode_gsv src 7
          else if memcmp4_eq src 3 "RMC,".toList then run_decode decode_rmc src 7
          else if memcmp4_eq src 3 "VTG,".toList then run_decode decode_vtg src 7
          else
            match decode_raw src 1 size with
            | none => none
            | some (res, mem, dst) => some (res, mem, some dst)

/-! ## Positions -/

/-- The C library `strcspn`: the length of the longest initial part of a
string holding no character of `reject`. -/
def strcspn (s : List Char) (reject : List Char) : Nat :=
  (s.takeWhile (fun c => decide (c ∉ reject))).length

/-- A value of type `long`, of `long_bits` bits; an arithmetic result outside
the type is undefined. -/
def as_long (long_bits : Nat) (x : Int) : Option Int :=
  if -(2 ^ (long_bits - 1) : Int) ≤ x ∧ x < (2 ^ (long_bits - 1) : Int) then some x
  else none

/-- The function `nmea_decode_position`: the value returned and the value
stored to `degrees_p` (`none` when nothing is stored).

The routines `std_strtolb` and `std_strtodfp` are defined outside `src/` and
are parameters, as in `nmea_decode`; the width of `long` is a parameter too.
The angle is the C string at `angle_p`, so that `angle_p[pos]` is the NUL
exactly for `pos` equal to its length. -/
def nmea_decode_position (std_strtolb std_strtodfp : List Char → Nat → Option (Int × Nat))
    (long_bits : Nat) (src_p : nmea_position_t (List Char)) :
    Option (ssize_t × Option Int) :=
  let angle_p := src_p.angle_p
  let direction_p := src_p.direction_p
  let pos := strcspn angle_p ['.']
  if angle_p.getD pos '\x00' = '\x00' then some (ssize_t.neg errno_t.EPROTO, none)
  else
    match size_minus pos 2 with
    | none => none
    | some minutes_pos =>
      match std_strtodfp (angle_p.drop minutes_pos) 6 with
      | none => some (ssize_t.neg errno_t.EPROTO, none)
      | some (minutes, _) =>
        match std_strtolb (angle_p.take minutes_pos) 10 with
        | none => some (ssize_t.neg errno_t.EPROTO, none)
        | some (degrees, end_p) =>
          if end_p ≠ minutes_pos then some (ssize_t.neg errno_t.EPROTO, none)
          else
            match as_long long_bits degrees, as_long long_bits minutes with
            | some degrees, some minutes =>
              match as_long long_bits (degrees * 1000000) with
              | none => none
              | some scaled =>
                match as_long long_bits (scaled + Int.tdiv minutes 60) with
                | none => none
                | some value =>
                  if direction_p.getD 0 '\x00' = 'S' ∨ direction_p.getD 0 '\x00' = 'W' then
                    match as_long long_bits (value * -1) with
                    | none => none
                    | some value => some (ssize_t.val 0, some value)
                  else some (ssize_t.val 0, some value)
            | _, _ => none

/-! ## A reading of the conversion routines

Used to instantiate the parameters `std_strtolb` and `std_strtodfp`. -/

/-- The value of a digit in a base, `none` for a character that is no digit
of the base. -/
def digit_value (base : Nat) (c : Char) : Option Nat :=
  if 48 ≤ c.toNat ∧ c.toNat ≤ 57 then
    (if c.toNat - 48 < base then some (c.toNat - 48) else none)
  else if base = 16 ∧ 97 ≤ c.toNat ∧ c.toNat ≤ 102 then some (c.toNat - 87)
  else if base = 16 ∧ 65 ≤ c.toNat ∧ c.toNat ≤ 70 then some (c.toNat - 55)
  else none

/-- The longest run of digits at the start of a string: its value and its
length. -/
def read_digits (base : Nat) : List Char → Nat → Nat → Nat × Nat
  | [], value, count => (value, count)
  | c :: cs, value, count =>
    match digit_value base c with
    | some d => read_digits base cs (value * base + d) (count + 1)
    | none => (value, count)

/-- A string to integer conversion in the given base: an optional `-`, then
at least one digit. -/
def strtolb_digits (s : List Char) (base : Nat) : Option (Int × Nat) :=
  match s with
  | '-' :: rest =>
    let r := read_digits base rest 0 0
    if r.2 = 0 then none else some (-(r.1 : Int), r.2 + 1)
  | _ =>
    let r := read_digits base s 0 0
    if r.2 = 0 then none else some ((r.1 : Int), r.2)

/-- A string to fixed point conversion with `precision` decimals: digits, a
`.`, digits; fraction digits beyond the precision are dropped. -/
def strtodfp_digits (s : List Char) (precision : Nat) : Option (Int × Nat) :=
  let i := read_digits 10 s 0 0
  if i.2 = 0 then none
  else
    match s.drop i.2 with
    | '.' :: rest =>
      let f := read_digits 10 (rest.take precision) 0 0
      let all := read_digits 10 rest 0 0
      some ((i.1 * 10 ^ precision + f.1 * 10 ^ (precision - f.2) : Nat), i.2 + 1 + all.2)
    | _ => some ((i.1 * 10 ^ precision : Nat), i.2)

end Nmea

namespace SocketStub

/-! ## The queue of the kernel

The queue and channel modules are defined outside `src/`; the stub is
embedded over their operations as parameters, and the queue below follows the
wording of the specification. -/

/-- Modelled from the spec: the `struct queue_t`, missing from `src/`.
"An owned fixed-size byte buffer, a read cursor, a write cursor, a count of
buffered bytes"; `stopped` records `stop()` / `start()`.  The wait-lists are
left out: the operations below describe one thread running alone, and yield
`none` when the caller is suspended and no other thread can wake it. -/
structure queue_t where
  buffer : List Char
  capacity : Nat
  read_cursor : Nat
  write_cursor : Nat
  count : Nat
  stopped : Bool
  deriving DecidableEq, Repr

/-- Modelled from the spec: `queue_init`, missing from `src/`.
"`init(buffer, capacity)`: binds caller-owned storage; queue starts empty." -/
def queue_init (buffer : List Char) (capacity : Nat) : queue_t :=
  { buffer := buffer, capacity := capacity, read_cursor := 0, write_cursor := 0,
    count := 0, stopped := false }

/-- Modelled from the spec: the copy of one byte into a queue, missing from
`src/`: the byte goes to the write cursor, which advances and "wraps modulo
capacity". -/
def queue_put (q : queue_t) (b : Char) : queue_t :=
  { q with
    buffer := q.buffer.set q.write_cursor b
    write_cursor := (q.write_cursor + 1) % q.capacity
    count := q.count + 1 }

/-- Modelled from the spec: the copy of one byte out of a queue, missing from
`src/`: the byte at the read cursor, which advances and wraps modulo the
capacity. -/
def queue_get (q : queue_t) : Char × queue_t :=
  (q.buffer.getD q.read_cursor '\x00',
   { q with
     read_cursor := (q.read_cursor + 1) % q.capacity
     count := q.count - 1 })

/-- The copy of the bytes of a list into a queue, in order. -/
def queue_put_all (q : queue_t) : List Char → queue_t
  | [] => q
  | b :: bs => queue_put_all (queue_put q b) bs

/-- The copy of `n` bytes out of a queue, in order. -/
def queue_get_n (q : queue_t) : Nat → List Char × queue_t
  | 0 => ([], q)
  | n + 1 =>
    let r := queue_get q
    let rs := queue_get_n r.2 n
    (r.1 :: rs.1, rs.2)

/-- Modelled from the spec: `queue_write`, missing from `src/`.
"Blocks while the queue is full, then copies bytes, advances the write
cursor"; "writing zero bytes is a no-op returning 0"; "may return fewer than
`size` bytes if the destination becomes closed".  The bytes that fit are
copied; with bytes left over the caller stays blocked on the full queue
(`none`) unless the queue is stopped. -/
def queue_write (q : queue_t) (src : List Char) : Option (Int × queue_t) :=
  let n := min src.length (q.capacity - q.count)
  let q1 := queue_put_all q (src.take n)
  if n = src.length then some ((n : Int), q1)
  else if q.stopped then some ((n : Int), q1)
  else none

/-- Modelled from the spec: `queue_read`, missing from `src/`.
"Blocks until at least one byte is available, then copies up to `size`
bytes (short reads are permitted)"; "reading from a stopped, empty queue
returns an end-of-stream result (zero, not an error)".  The result is the
value returned, the bytes stored to the destination and the queue. -/
def queue_read (q : queue_t) (size : Nat) : Option (Int × List Char × queue_t) :=
  if q.count = 0 then
    if q.stopped then some (0, [], q) else none
  else
    let n := min size q.count
    let r := queue_get_n q n
    some ((n : Int), r.1, r.2)

/-- Modelled from the spec: `chan_write` on a queue, missing from `src/`.
"`read`/`write` forward to the bound implementation"; the channel of a queue
is bound to `queue_write`. -/
def chan_write (q : queue_t) (src : List Char) : Option (Int × queue_t) :=
  queue_write q src

/-! ## The stub -/

/-- The static variables of `socket_stub.c`; `Q` is the type of a queue and
`E` the type of an event.  The storage `qinputbuf` and `qoutputbuf` is part
of the queues. -/
structure stub_t (Q E : Type) where
  qinput : Q
  qoutput : Q
  accept_events : E
  closed_events : E

/-- The static function `read` of the stub: `queue_read(&qinput, buf_p, size)`.
The result is the value returned, the bytes stored to `buf_p` and the state
afterwards; `none` when the call does not return. -/
def read {Q E : Type} (queue_read : Q → Nat → Option (Int × List Char × Q))
    (st : stub_t Q E) (size : Nat) : Option (Int × List Char × stub_t Q E) :=
  match queue_read st.qinput size with
  | none => none
  | some (res, buf, q) => some (res, buf, { st with qinput := q })

/-- The static function `write` of the stub: `chan_write(&qoutput, buf_p, size)`. -/
def write {Q E : Type} (chan_write : Q → List Char → Option (Int × Q))
    (st : stub_t Q E) (buf : List Char) : Option (Int × stub_t Q E) :=
  match chan_write st.qoutput buf with
  | none => none
  | some (res, q) => some (res, { st with qoutput := q })

/-- The function `socket_sendto`. -/
def socket_sendto {Q E : Type} (chan_write : Q → List Char → Option (Int × Q))
    (st : stub_t Q E) (buf : List Char) : Option (Int × stub_t Q E) :=
  write chan_write st buf

/-- The function `socket_recvfrom`. -/
def socket_recvfrom {Q E : Type} (queue_read : Q → Nat → Option (Int × List Char × Q))
    (st : stub_t Q E) (size : Nat) : Option (Int × List Char × stub_t Q E) :=
  read queue_read st size

/-- The function `socket_write`. -/
def socket_write {Q E : Type} (chan_write : Q → List Char → Option (Int × Q))
    (st : stub_t Q E) (buf : List Char) : Option (Int × stub_t Q E) :=
  write chan_write st buf

/-- The function `socket_read`. -/
def socket_read {Q E : Type} (queue_read : Q → Nat → Option (Int × List Char × Q))
    (st : stub_t Q E) (size : Nat) : Option (Int × List Char × stub_t Q E) :=
  read queue_read st size

/-- The function `socket_stub_init`; `qinputbuf` and `qoutputbuf` are arrays of
256 bytes with static storage (zero-initialised). -/
def socket_stub_init {Q E : Type} (queue_init : List Char → Nat → Q) (event_init : E) :
    stub_t Q E :=
  { qinput := queue_init (List.replicate 256 '\x00') 256
    qoutput := queue_init (List.replicate 256 '\x00') 256
    accept_events := event_init
    closed_events := event_init }

/-- The function `socket_stub_input`: `chan_write(&qinput, buf_p, size)`, the
value returned being dropped. -/
def socket_stub_input {Q E : Type} (chan_write : Q → List Char → Option (Int × Q))
    (st : stub_t Q E) (buf : List Char) : Option (stub_t Q E) :=
  match chan_write st.qinput buf with
  | none => none
  | some (_, q) => some { st with qinput := q }

end SocketStub

namespace Nmea

/-! ## Notions used in the statements -/

/-- The XOR of the byte values of a list of characters. -/
def xor_bytes (bs : List Char) : Nat :=
  bs.foldl (fun acc c => acc ^^^ (c.toNat % 256)) 0

/-- The upper-case hexadecimal digit of a value below 16. -/
def upper_hex_digit (d : Nat) : Char :=
  "0123456789ABCDEF".toList.getD d '0'

/-- The two-digit upper-case hexadecimal form of a value below 256. -/
def upper_hex2 (v : Nat) : List Char :=
  [upper_hex_digit (v / 16), upper_hex_digit (v % 16)]

/-- The check digits that `nmea_encode` writes for a body. -/
def check_digits (body : List Char) : List Char :=
  [toupper (hex_digit (calculate_crc body / 16 % 16)),
   toupper (hex_digit (calculate_crc body % 16))]

/-- The GGA sentence of the NMEA documentation. -/
def example_gga : nmea_sentence_t (List Char) :=
  nmea_sentence_t.gga {
    time_of_fix_p := "123519".toList
    latitude := ⟨"4807.038".toList, "N".toList⟩
    longitude := ⟨"01131.000".toList, "E".toList⟩
    fix_quality_p := "1".toList
    number_of_tracked_satellites_p := "08".toList
    horizontal_dilution_of_position_p := "0.9".toList
    altitude := ⟨"545.4".toList, "M".toList⟩
    height_of_geoid := ⟨"46.9".toList, "M".toList⟩ }

/-! ## Notions used in the proofs about the decoder -/

/-- The delimiter strings of the `strsep` calls of `decode_gga`, in order. -/
def gga_delims : List (List Char) := List.replicate 13 [','] ++ [['*']]

/-- The delimiter strings of the `strsep` calls of `decode_gll`, in order. -/
def gll_delims : List (List Char) := List.replicate 6 [','] ++ [['*']]

/-- The delimiter strings of the `strsep` calls of `decode_gsa`, in order. -/
def gsa_delims : List (List Char) := List.replicate 16 [','] ++ [['*']]

/-- The delimiter strings of the `strsep` calls of `decode_gsv`, in order. -/
def gsv_delims : List (List Char) := List.replicate 18 [','] ++ [['*']]

/-- The delimiter strings of the `strsep` calls of `decode_rmc`, in order. -/
def rmc_delims : List (List Char) := List.replicate 10 [','] ++ [['*']]

/-- The delimiter strings of the `strsep` calls of `decode_vtg`, in order. -/
def vtg_delims : List (List Char) := List.replicate 7 [','] ++ [['*']]

/-- The GGA sentence whose members are the tokens of a list, in order. -/
def gga_of_tokens (t : List (Option Nat)) : nmea_sentence_t (Option Nat) :=
  nmea_sentence_t.gga {
    time_of_fix_p := t.getD 0 none
    latitude := ⟨t.getD 1 none, t.getD 2 none⟩
    longitude := ⟨t.getD 3 none, t.getD 4 none⟩
    fix_quality_p := t.getD 5 none
    number_of_tracked_satellites_p := t.getD 6 none
    horizontal_dilution_of_position_p := t.getD 7 none
    altitude := ⟨t.getD 8 none, t.getD 9 none⟩
    height_of_geoid := ⟨t.getD 10 none, t.getD 11 none⟩ }

/-- The GLL sentence whose members are the tokens of a list, in order. -/
def gll_of_tokens (t : List (Option Nat)) : nmea_sentence_t (Option Nat) :=
  nmea_sentence_t.gll {
    latitude := ⟨t.getD 0 none, t.getD 1 none⟩
    longitude := ⟨t.getD 2 none, t.getD 3 none⟩
    time_of_fix_p := t.getD 4 none
    data_active_p := t.getD 5 none }

/-- The GSA sentence whose members are the tokens of a list, in order. -/
def gsa_of_tokens (t : List (Option Nat)) : nmea_sentence_t (Option Nat) :=
  nmea_sentence_t.gsa {
    selection_p := t.getD 0 none
    fix_p := t.getD 1 none
    prns := fun i => ((t.drop 2).take 12).getD i.val none
    pdop_p := t.getD 14 none
    hdop_p := t.getD 15 none
    vdop_p := t.getD 16 none }

/-- The GSV sentence whose members are the tokens of a list, in order. -/
def gsv_of_tokens (t : List (Option Nat)) : nmea_sentence_t (Option Nat) :=
  nmea_sentence_t.gsv {
    number_of_sentences_p := t.getD 0 none
    sentence_p := t.getD 1 none
    number_of_satellites_p := t.getD 2 none
    satellites := fun i =>
      [(⟨t.getD 3 none, t.getD 4 none, t.getD 5 none, t.getD 6 none⟩ : nmea_satellite_t (Option Nat)),
       ⟨t.getD 7 none, t.getD 8 none, t.getD 9 none, t.getD 10 none⟩,
       ⟨t.getD 11 none, t.getD 12 none, t.getD 13 none, t.getD 14 none⟩,
       ⟨t.getD 15 none, t.getD 16 none, t.getD 17 none, t.getD 18 none⟩].getD i.val
        ⟨none, none, none, none⟩ }

/-- The RMC sentence whose members are the tokens of a list, in order. -/
def rmc_of_tokens (t : List (Option Nat)) : nmea_sentence_t (Option Nat) :=
  nmea_sentence_t.rmc {
    time_of_fix_p := t.getD 0 none
    status_p := t.getD 1 none
    latitude := ⟨t.getD 2 none, t.getD 3 none⟩
    longitude := ⟨t.getD 4 none, t.getD 5 none⟩
    speed_knots_p := t.getD 6 none
    track_angle_p := t.getD 7 none
    date_p := t.getD 8 none
    magnetic_variation := ⟨t.getD 9 none, t.getD 10 none⟩ }

/-- The VTG sentence whose members are the tokens of a list, in order. -/
def vtg_of_tokens (t : List (Option Nat)) : nmea_sentence_t (Option Nat) :=
  nmea_sentence_t.vtg {
    track_made_good_true := ⟨t.getD 0 none, t.getD 1 none⟩
    track_made_good_magnetic := ⟨t.getD 2 none, t.getD 3 none⟩
    ground_speed_knots := ⟨t.getD 4 none, t.getD 5 none⟩
    ground_speed_kmph := ⟨t.getD 6 none, t.getD 7 none⟩ }

/-- The common shape of the `decode_*` functions: the `strsep` calls for a
list of delimiter strings, then the test of `src_p`. -/
def decode_with (delims : List (List Char))
    (of_tokens : List (Option Nat) → nmea_sentence_t (Option Nat)) :
    decode_m (ssize_t × nmea_sentence_t (Option Nat)) := do
  let toks ← strsep_seq delims
  let src_p ← get_src_p
  pure (all_values_parsed src_p, of_tokens toks)

instance : LawfulMonad decode_m := LawfulMonad.mk' decode_m
  (by
    intro α x
    funext st
    show decode_m.bind x (fun a => decode_m.pure (id a)) st = x st
    unfold decode_m.bind decode_m.pure
    cases x st <;> rfl)
  (by intros; rfl)
  (by
    intro α β γ x f g
    funext st
    show decode_m.bind (decode_m.bind x f) g st
      = decode_m.bind x (fun a => decode_m.bind (f a) g) st
    unfold decode_m.bind
    cases x st <;> rfl)

/-- The part of a string behind the first occurrence of a delimiter, `none`
when the string does not hold the delimiter. -/
def after_delim (d : Char) : List Char → Option (List Char)
  | [] => none
  | c :: cs => if c = d then some cs else after_delim d cs

/-- A string holds the separators of a list, in order. -/
def separators_present : List Char → List Char → Bool
  | [], _ => true
  | d :: ds, text =>
    match after_delim d text with
    | none => false
    | some rest => separators_present ds rest

/-- The framing of a sentence of `size` characters in a buffer: `$G` at the
start, `*` at index `size - 5`, CR at `size - 2`, LF at `size - 1` and NUL at
`size`. -/
def framing_ok (src : List Char) (size : Nat) : Prop :=
  src[0]? = some '$' ∧ src[1]? = some 'G' ∧ 5 ≤ size ∧ src[size - 5]? = some '*' ∧
    src[size - 2]? = some '\r' ∧ src[size - 1]? = some '\n' ∧ src[size]? = some '\x00'

instance (src : List Char) (size : Nat) : Decidable (framing_ok src size) := by
  unfold framing_ok
  infer_instance

/-- The value of two hexadecimal digits, `none` when one of them is no
hexadecimal digit. -/
def hex_value2 (h1 h2 : Char) : Option Nat :=
  match digit_value 16 h1, digit_value 16 h2 with
  | some d1, some d2 => some (16 * d1 + d2)
  | _, _ => none

/-- The tag that `nmea_decode` compares `&src_p[3]` with, for a typed sentence. -/
def type_tag : nmea_sentence_type_t → List Char
  | .gga => "GGA,".toList
  | .gll => "GLL,".toList
  | .gsa => "GSA,".toList
  | .gsv => "GSV,".toList
  | .rmc => "RMC,".toList
  | .vtg => "VTG,".toList
  | _ => []

/-- The number of commas that the text of a typed sentence needs, in front of
its `*`. -/
def required_commas : nmea_sentence_type_t → Nat
  | .gga => 13
  | .gll => 6
  | .gsa => 16
  | .gsv => 18
  | .rmc => 10
  | .vtg => 7
  | _ => 0

/-- The typed sentences: GGA, GLL, GSA, GSV, RMC and VTG. -/
def is_typed : nmea_sentence_type_t → Bool
  | .gga => true
  | .gll => true
  | .gsa => true
  | .gsv => true
  | .rmc => true
  | .vtg => true
  | _ => false

/-- The decoder that `nmea_decode` calls for a typed sentence. -/
def typed_decoder : nmea_sentence_type_t → decode_m (ssize_t × nmea_sentence_t (Option Nat))
  | .gga => decode_gga
  | .gll => decode_gll
  | .gsa => decode_gsa
  | .gsv => decode_gsv
  | .rmc => decode_rmc
  | .vtg => decode_vtg
  | _ => decode_gga

/-- The sentence of a typed decoder for given tokens. -/
def typed_of_tokens : nmea_sentence_type_t → List (Option Nat) → nmea_sentence_t (Option Nat)
  | .gga => gga_of_tokens
  | .gll => gll_of_tokens
  | .gsa => gsa_of_tokens
  | .gsv => gsv_of_tokens
  | .rmc => rmc_of_tokens
  | .vtg => vtg_of_tokens
  | _ => gga_of_tokens

/-- The text of a list of fields, each followed by its delimiter. -/
def layout : List (List Char × Char) → List Char
  | [] => []
  | t :: ts => t.1 ++ t.2 :: layout ts

/-- The text of a list of fields after decoding: every delimiter is
overwritten with a NUL. -/
def zeroed : List (List Char × Char) → List Char
  | [] => []
  | t :: ts => t.1 ++ '\x00' :: zeroed ts

/-- The offsets of the fields of a layout that starts at a given offset. -/
def offsets (start : Nat) : List (List Char × Char) → List (Option Nat)
  | [] => []
  | t :: ts => some start :: offsets (start + t.1.length + 1) ts

/-- A field holds neither a NUL nor its delimiter, and the delimiter is no NUL. -/
def token_ok (t : List Char × Char) : Prop :=
  t.2 ≠ '\x00' ∧ ∀ c ∈ t.1, c ≠ '\x00' ∧ c ≠ t.2

instance (t : List Char × Char) : Decidable (token_ok t) := by
  unfold token_ok
  infer_instance

/-- The fields of a list, each with a comma behind it but the last one, which
has a `*` behind it. -/
def comma_separated : List (List Char) → List (List Char × Char)
  | [] => []
  | [f] => [(f, '*')]
  | f :: fs => (f, ',') :: comma_separated fs

/-- The fields of the text of a typed sentence, each with the delimiter that
follows it: GGA ends in two empty fields and GLL in one. -/
def field_tokens (s : nmea_sentence_t (List Char)) : List (List Char × Char) :=
  match s with
  | .gga _ => s.fields.map (fun f => (f, ',')) ++ [([], ','), ([], '*')]
  | .gll _ => s.fields.map (fun f => (f, ',')) ++ [([], '*')]
  | _ => comma_separated s.fields

/-! ## Notions used in the statements about positions -/

/-- The C library `isdigit` in the C locale. -/
def is_digit (c : Char) : Bool :=
  decide (48 ≤ c.toNat ∧ c.toNat ≤ 57)

/-- The value of a string of decimal digits. -/
def decimal_value (ds : List Char) : Nat :=
  ds.foldl (fun v c => 10 * v + (c.toNat - 48)) 0

/-- The value of minutes `m1 m2 . frac` as a fixed point number with six
decimals: the minutes times 1000000, rounded down. -/
def minutes_fixed6 (m1 m2 : Char) (frac : List Char) : Nat :=
  decimal_value [m1, m2] * 1000000 + decimal_value ((frac ++ List.replicate 6 '0').take 6)

/-- The microdegrees of an angle with degree digits `deg` and minutes
`m1 m2 . frac`. -/
def microdegrees (deg : List Char) (m1 m2 : Char) (frac : List Char) : Nat :=
  decimal_value deg * 1000000 + minutes_fixed6 m1 m2 frac / 60

end Nmea

namespace SocketStub

/-! ## Notions used in the statements about the stub -/

/-- The invariant of a queue: the storage has `capacity` bytes, the cursors
and the count stay in range, and the write cursor is `count` bytes ahead of
the read cursor, modulo the capacity. -/
def queue_wf (q : queue_t) : Prop :=
  q.buffer.length = q.capacity ∧ 0 < q.capacity ∧ q.read_cursor < q.capacity ∧
    q.count ≤ q.capacity ∧ q.write_cursor = (q.read_cursor + q.count) % q.capacity

instance (q : queue_t) : Decidable (queue_wf q) := by
  unfold queue_wf
  infer_instance

/-- The bytes buffered in a queue, oldest first. -/
def queue_contents (q : queue_t) : List Char :=
  (List.range q.count).map fun i =>
    q.buffer.getD ((q.read_cursor + i) % q.capacity) '\x00'

/-- The stub right after `socket_stub_init`, over the queue of the
specification; events play no role here. -/
def fresh_stub : stub_t queue_t Unit :=
  socket_stub_init queue_init ()

end SocketStub

namespace SocketStub

/-! ## More of the kernel: queue control, events and channels -/

/-- Modelled from the spec: `queue_write_isr`, missing from `src/`.
"Identical copy semantics but never blocks; if the queue lacks room, it
writes as many bytes as fit (possibly zero) and returns immediately."  The
result is the number of bytes written and the queue. -/
def queue_write_isr (q : queue_t) (src : List Char) : Int × queue_t :=
  let n := min src.length (q.capacity - q.count)
  ((n : Int), queue_put_all q (src.take n))

/-- Modelled from the spec: `queue_stop`, missing from `src/`.
"`stop` wakes all blocked readers and writers with an end-of-stream
indication, without discarding buffered bytes." -/
def queue_stop (q : queue_t) : queue_t :=
  { q with stopped := true }

/-- Modelled from the spec: `queue_start`, missing from `src/`.
"`start` re-arms blocking behavior." -/
def queue_start (q : queue_t) : queue_t :=
  { q with stopped := false }

/-- Modelled from the spec: the `struct event_t`, missing from `src/`.
"A single machine-word bitmask"; the wait-list is left out, as for the
queue. -/
structure event_t where
  signal : Nat
  deriving DecidableEq, Repr

/-- Modelled from the spec: `event_init`, missing from `src/`.
"`init()`: zero-initializes the bitmask and wait-list." -/
def event_init : event_t :=
  { signal := 0 }

/-- Modelled from the spec: `event_write`, missing from `src/`.
"ORs `mask` into the signal." -/
def event_write (e : event_t) (mask : Nat) : event_t :=
  { signal := e.signal ||| mask }

/-- Modelled from the spec: `event_read`, missing from `src/`.
"`wait(mask)`: blocks the calling thread until at least one bit in `mask` is
set in the signal; returns the intersection of `mask` and the current signal,
and atomically clears the returned bits from the signal."  The result is the
mask returned and the event; `none` when the caller stays blocked. -/
def event_read (e : event_t) (mask : Nat) : Option (Nat × event_t) :=
  if e.signal &&& mask = 0 then none
  else some (e.signal &&& mask, { signal := e.signal ^^^ (e.signal &&& mask) })

/-- Modelled from the spec: the `struct chan_t`, missing from `src/`.
"An interface record binding three operations, `read`, `write` and `size`,
to a concrete implementation"; `S` is the state the implementation acts on. -/
structure chan_t (S : Type) where
  read : S → Nat → Option (Int × List Char × S)
  write : S → List Char → Option (Int × S)
  size : S → Nat

/-- Modelled from the spec: `chan_init`, missing from `src/`.
"A Channel is constructed by binding a concrete implementation's
read/write/size operations"; the value returned is 0. -/
def chan_init {S : Type} (read : S → Nat → Option (Int × List Char × S))
    (write : S → List Char → Option (Int × S)) (size : S → Nat) : Int × chan_t S :=
  (0, { read := read, write := write, size := size })

/-- Modelled from the spec: `chan_size`, missing from `src/`.
The channel forwards to the operation bound to it. -/
def chan_size {S : Type} (chan : chan_t S) (s : S) : Nat :=
  chan.size s

/-! ## More of the stub -/

/-- The `struct socket_t`, of which the stub uses the member `base`. -/
structure socket_t (S : Type) where
  base : chan_t S

/-- The static function `size` of the stub. -/
def size {Q E : Type} (_st : stub_t Q E) : Nat :=
  0

/-- The function `socket_open_tcp`: the value returned and the socket
`*self_p`. -/
def socket_open_tcp {Q E : Type} (queue_read : Q → Nat → Option (Int × List Char × Q))
    (chan_write : Q → List Char → Option (Int × Q)) : Int × socket_t (stub_t Q E) :=
  let r := chan_init (read queue_read) (write chan_write) size
  (r.1, { base := r.2 })

/-- The function `socket_close`: the value returned and the state afterwards. -/
def socket_close {Q E : Type} (event_write : E → Nat → E) (st : stub_t Q E) :
    Int × stub_t Q E :=
  let mask := 0x1
  (0, { st with closed_events := event_write st.closed_events mask })

/-- The function `socket_accept`: the socket `*accepted_p`, bound before the
wait, and the value returned with the state afterwards, `none` when the wait
for the accept event does not return. -/
def socket_accept {Q E : Type} (queue_read : Q → Nat → Option (Int × List Char × Q))
    (chan_write : Q → List Char → Option (Int × Q))
    (event_read : E → Nat → Option (Nat × E)) (st : stub_t Q E) :
    socket_t (stub_t Q E) × Option (Int × stub_t Q E) :=
  let accepted := (chan_init (read queue_read) (write chan_write) size).2
  let mask := 0x1
  ({ base := accepted },
    match event_read st.accept_events mask with
    | none => none
    | some (_, e) => some (0, { st with accept_events := e }))

/-- The function `socket_stub_accept`. -/
def socket_stub_accept {Q E : Type} (event_write : E → Nat → E) (st : stub_t Q E) :
    stub_t Q E :=
  let mask := 0x1
  { st with accept_events := event_write st.accept_events mask }

/-- The function `socket_stub_wait_closed`: the state afterwards, `none` when
the wait does not return. -/
def socket_stub_wait_closed {Q E : Type} (event_read : E → Nat → Option (Nat × E))
    (st : stub_t Q E) : Option (stub_t Q E) :=
  let mask := 0x1
  match event_read st.closed_events mask with
  | none => none
  | some (_, e) => some { st with closed_events := e }

/-- The function `socket_stub_close_connection`. -/
def socket_stub_close_connection {Q E : Type} (queue_stop queue_start : Q → Q)
    (st : stub_t Q E) : stub_t Q E :=
  { st with qinput := queue_start (queue_stop st.qinput) }

/-- The stub right after `socket_stub_init`, over the queue and the event of
the specification. -/
def fresh_event_stub : stub_t queue_t event_t :=
  socket_stub_init queue_init event_init

/-- The stub after `socket_stub_init` and the injection of the five bytes
`GET /` with `socket_stub_input`. -/
def stub_with_input : stub_t queue_t Unit :=
  { fresh_stub with qinput := queue_put_all fresh_stub.qinput "GET /".toList }

end SocketStub

namespace SignalAnalyzer

/-! ## The signal analyzer example

A shallow embedding of `examples/signal_analyzer/main.c`.  A `uint32_t` is a
natural number, and arithmetic on it is taken modulo 2^32.  The kernel and
driver routines are defined outside `src/`: the embedded functions take them
as parameters and record every call they make, in order. -/

/-- The macro `TIMEOUTS_PER_REPORT`. -/
def TIMEOUTS_PER_REPORT : Nat := 20

/-- The `struct report_t`. -/
structure report_t where
  high_count : Nat
  low_count : Nat
  rising_count : Nat
  deriving DecidableEq, Repr

/-- The `struct pwm_pin_t`; a pin device is named by a number. -/
structure pwm_pin_t where
  pin_device_p : Nat
  previous_value : Int
  report : report_t
  deriving DecidableEq, Repr

/-- The `struct module_t`, without the shell command; `pwm_pins` holds the
members of the array in index order, and the storage `buf` lives in the
queue it is handed to. -/
structure module_t (Q : Type) where
  timeout_count : Nat
  queue : Q
  pwm_pins : List pwm_pin_t

/-- A call of a kernel or driver routine, with its arguments; a call of
`queue_write_isr` also carries the value it returned. -/
inductive kernel_call_t
  | pin_device_read (pin_device_p : Nat)
  | queue_write_isr (src : List Char) (res : Int)
  | queue_read (size : Nat)
  | queue_write (src : List Char)
  | event_read (mask : Nat)
  deriving DecidableEq, Repr

/-- Modelled from the spec: the calls that may suspend the caller.
"`Event.wait`, `Queue.read`, `Queue.write` (thread-context only) are the only
operations that may suspend the calling thread; every other operation is
guaranteed non-blocking and safe for interrupt context." -/
def may_suspend : kernel_call_t → Bool
  | .queue_read _ => true
  | .queue_write _ => true
  | .event_read _ => true
  | _ => false

/-- The bytes of a `uint32_t` object, lowest byte first. -/
def u32_bytes (v : Nat) : List Char :=
  [Char.ofNat (v % 256), Char.ofNat (v / 256 % 256), Char.ofNat (v / 65536 % 256),
   Char.ofNat (v / 16777216 % 256)]

/-- The bytes of a `struct report_t` object: its three members, in order;
`sizeof` is 12. -/
def report_bytes (r : report_t) : List Char :=
  u32_bytes r.high_count ++ u32_bytes r.low_count ++ u32_bytes r.rising_count

/-- The value of a `uint32_t` object with the given bytes. -/
def u32_of_bytes (bs : List Char) : Nat :=
  (bs.getD 0 '\x00').toNat + 256 * (bs.getD 1 '\x00').toNat
    + 65536 * (bs.getD 2 '\x00').toNat + 16777216 * (bs.getD 3 '\x00').toNat

/-- The value of a `struct report_t` object with the given bytes. -/
def report_of_bytes (bs : List Char) : report_t :=
  { high_count := u32_of_bytes bs
    low_count := u32_of_bytes (bs.drop 4)
    rising_count := u32_of_bytes (bs.drop 8) }

/-- The value of an array of `n` objects of type `struct report_t` with the
given bytes. -/
def reports_of_bytes : Nat → List Char → List report_t
  | 0, _ => []
  | n + 1, bs => report_of_bytes bs :: reports_of_bytes n (bs.drop 12)

/-- The body of the first loop of `sample_timeout` for one pin;
`pin_device_read` gives the level of every pin device at the time of the
call. -/
def sample_pin (pin_device_read : Nat → Int) (pin : pwm_pin_t) : pwm_pin_t :=
  let value := pin_device_read pin.pin_device_p
  let report :=
    if value = 1 then
      { pin.report with high_count := (pin.report.high_count + 1) % 4294967296 }
    else
      { pin.report with low_count := (pin.report.low_count + 1) % 4294967296 }
  let report :=
    if value = 1 ∧ pin.previous_value = 0 then
      { report with rising_count := (report.rising_count + 1) % 4294967296 }
    else report
  { pin with previous_value := value, report := report }

/-- The first loop of `sample_timeout`, over the members of `pwm_pins` in
index order: the pins afterwards and the calls made. -/
def sample_pins (pin_device_read : Nat → Int) :
    List pwm_pin_t → List pwm_pin_t × List kernel_call_t
  | [] => ([], [])
  | pin :: pins =>
    let r := sample_pins pin_device_read pins
    (sample_pin pin_device_read pin :: r.1,
      kernel_call_t.pin_device_read pin.pin_device_p :: r.2)

/-- The second loop of `sample_timeout`, over the members of `pwm_pins` in
index order: the queue and the pins afterwards and the calls made. -/
def report_pins {Q : Type} (queue_write_isr : Q → List Char → Int × Q) :
    Q → List pwm_pin_t → Q × List pwm_pin_t × List kernel_call_t
  | q, [] => (q, [], [])
  | q, pin :: pins =>
    let w := queue_write_isr q (report_bytes pin.report)
    let r := report_pins queue_write_isr w.2 pins
    (r.1,
      { pin with report := { high_count := 0, low_count := 0, rising_count := 0 } } :: r.2.1,
      kernel_call_t.queue_write_isr (report_bytes pin.report) w.1 :: r.2.2)

/-- The function `sample_timeout`: the module afterwards and the calls made,
in order. -/
def sample_timeout {Q : Type} (pin_device_read : Nat → Int)
    (queue_write_isr : Q → List Char → Int × Q) (module : module_t Q) :
    module_t Q × List kernel_call_t :=
  let s := sample_pins pin_device_read module.pwm_pins
  let timeout_count := (module.timeout_count + 1) % 4294967296
  if timeout_count % TIMEOUTS_PER_REPORT = 0 then
    let w := queue_write_isr module.queue (u32_bytes timeout_count)
    let r := report_pins queue_write_isr w.2 s.1
    ({ timeout_count := timeout_count, queue := r.1, pwm_pins := r.2.1 },
      s.2 ++ kernel_call_t.queue_write_isr (u32_bytes timeout_count) w.1 :: r.2.2)
  else
    ({ timeout_count := timeout_count, queue := module.queue, pwm_pins := s.1 }, s.2)

/-- The bytes of an object after a read that stored `new` at its start. -/
def overlay (old new : List Char) : List Char :=
  new ++ old.drop new.length

/-- The start of `cmd_pwm_measure_cb`, behind the argument checks:
`queue_init` on the 128 bytes of `module.buf`, and the reset of the counters. -/
def measure_init {Q : Type} (queue_init : List Char → Nat → Q) (buf : List Char)
    (module : module_t Q) : module_t Q :=
  { timeout_count := 0
    queue := queue_init buf 128
    pwm_pins := module.pwm_pins.map fun pin =>
      { pin with report := { high_count := 0, low_count := 0, rising_count := 0 } } }

/-- The two `queue_read` calls of one iteration of the read loop of
`cmd_pwm_measure_cb`: the values of `time` and `reports` afterwards, the
queue, and the calls made; `none` when a call does not return.  The arguments
`time` and `reports` are the bytes the two local objects hold before. -/
def read_report {Q : Type} (queue_read : Q → Nat → Option (Int × List Char × Q))
    (q : Q) (time reports : List Char) :
    Option (Nat × List report_t × Q × List kernel_call_t) :=
  match queue_read q 4 with
  | none => none
  | some (_, b1, q1) =>
    match queue_read q1 (8 * 12) with
    | none => none
    | some (_, b2, q2) =>
      some (u32_of_bytes (overlay time b1), reports_of_bytes 8 (overlay reports b2), q2,
        [kernel_call_t.queue_read 4, kernel_call_t.queue_read (8 * 12)])

/-- The bytes passed to `queue_write_isr` by a call, `none` for another call. -/
def written : kernel_call_t → Option (List Char)
  | .queue_write_isr src _ => some src
  | _ => none

/-- A counter value fits the type `uint32_t`. -/
def report_in_range (r : report_t) : Prop :=
  r.high_count < 4294967296 ∧ r.low_count < 4294967296 ∧ r.rising_count < 4294967296

instance (r : report_t) : Decidable (report_in_range r) := by
  unfold report_in_range
  infer_instance

/-- The module after a number of calls of `sample_timeout`; `levels n` gives
the pin levels at the call of index `n`. -/
def sample_run {Q : Type} (levels : Nat → Nat → Int)
    (queue_write_isr : Q → List Char → Int × Q) : Nat → module_t Q → module_t Q
  | 0, module => module
  | n + 1, module =>
    (sample_timeout (levels n) queue_write_isr (sample_run levels queue_write_isr n module)).1

/-- The module of the example before a measurement: the eight pin devices of
`main.c`, and counters left over from an earlier measurement. -/
def example_boot : module_t SocketStub.queue_t :=
  { timeout_count := 7
    queue := SocketStub.queue_init [] 0
    pwm_pins :=
      [⟨2, 0, ⟨3, 4, 1⟩⟩, ⟨4, 0, ⟨0, 7, 0⟩⟩, ⟨16, 0, ⟨7, 0, 1⟩⟩, ⟨17, 0, ⟨0, 0, 0⟩⟩,
       ⟨5, 0, ⟨1, 6, 1⟩⟩, ⟨18, 0, ⟨0, 0, 0⟩⟩, ⟨23, 0, ⟨2, 5, 2⟩⟩, ⟨19, 0, ⟨0, 0, 0⟩⟩] }

/-- The pin levels of the example: square waves whose period grows with the
number of the pin device. -/
def example_levels (n : Nat) (pin_device_p : Nat) : Int :=
  if n / (pin_device_p % 5 + 1) % 2 = 0 then 1 else 0

/-- The module of the example at the 20th sample of a measurement: started
by `measure_init` on the queue of the specification, 19 samples taken. -/
def example_module : module_t SocketStub.queue_t :=
  sample_run example_levels SocketStub.queue_write_isr 19
    (measure_init SocketStub.queue_init (List.replicate 128 '\x00') example_boot)

/-- The reports of the eight pins that the 20th sample of the example writes. -/
def example_reports : List report_t :=
  [⟨11, 9, 4⟩, ⟨10, 10, 2⟩, ⟨10, 10, 5⟩, ⟨11, 9, 4⟩, ⟨10, 10, 10⟩, ⟨12, 8, 3⟩, ⟨12, 8, 3⟩,
   ⟨10, 10, 2⟩]

end SignalAnalyzer

/-! # Theorems -/

namespace Nmea

/-! ## The encoder -/

theorem xor_mod_256 (a n : Nat) (ha : a < 256) : (a ^^^ n) % 256 = a ^^^ (n % 256) := by
  apply Nat.eq_of_testBit_eq
  intro i
  have h256 : (256 : Nat) = 2 ^ 8 := by norm_num
  rw [h256, Nat.testBit_mod_two_pow, Nat.testBit_xor, Nat.testBit_xor, Nat.testBit_mod_two_pow]
  by_cases hi : i < 8
  · simp [hi]
  · have : a.testBit i = false := by
      apply Nat.testBit_eq_false_of_lt
      calc a < 2 ^ 8 := by omega
        _ ≤ 2 ^ i := Nat.pow_le_pow_right (by norm_num) (by omega)
    simp [hi, this]

theorem xor_bytes_aux (bs : List Char) (a : Nat) (ha : a < 256) :
    bs.foldl (fun crc c => (crc ^^^ c.toNat) % 256) a
      = bs.foldl (fun acc c => acc ^^^ (c.toNat % 256)) a
    ∧ bs.foldl (fun acc c => acc ^^^ (c.toNat % 256)) a < 256 := by
  induction bs generalizing a with
  | nil => exact ⟨rfl, ha⟩
  | cons c cs ih =>
    simp only [List.foldl_cons]
    rw [xor_mod_256 a c.toNat ha]
    have hlt : a ^^^ (c.toNat % 256) < 256 := by
      have h256 : (256 : Nat) = 2 ^ 8 := by norm_num
      rw [h256]
      exact Nat.xor_lt_two_pow (by omega) (by omega)
    exact ih _ hlt

theorem calculate_crc_eq_xor_bytes (bs : List Char) : calculate_crc bs = xor_bytes bs :=
  (xor_bytes_aux bs 0 (by norm_num)).1

theorem calculate_crc_lt (bs : List Char) : calculate_crc bs < 256 := by
  rw [calculate_crc_eq_xor_bytes]
  exact (xor_bytes_aux bs 0 (by norm_num)).2

theorem toupper_hex_digit (d : Nat) (hd : d < 16) : toupper (hex_digit d) = upper_hex_digit d := by
  interval_cases d <;> rfl

theorem store_at_length (pre post cs : List Char) (i : Nat) (hi : i = pre.length) :
    store (pre ++ post) i cs = pre ++ (cs ++ post.drop cs.length) := by
  subst hi
  simp [store, List.drop_append]

theorem nmea_encode_eq (src : nmea_sentence_t (List Char)) (body : List Char)
    (h : encode_body src = some body) :
    nmea_encode src = (ssize_t.val (body.length + 6),
      '$' :: (body ++ '*' :: (check_digits body ++ ['\r', '\n', '\x00']))) := by
  unfold nmea_encode
  rw [h]
  simp only []
  have e0 : store [] 0 ['$'] = ['$'] := rfl
  have e1 : store ['$'] 1 (body ++ ['\x00']) = '$' :: (body ++ ['\x00']) := by
    have := store_at_length ['$'] [] (body ++ ['\x00']) 1 rfl
    simpa using this
  have e2 : store ('$' :: (body ++ ['\x00'])) (body.length + 1) ['*'] = '$' :: (body ++ ['*']) := by
    have := store_at_length ('$' :: body) ['\x00'] ['*'] (body.length + 1) (by simp)
    simpa using this
  have e3 : (List.drop 1 ('$' :: (body ++ ['*']))).take body.length = body := by
    simp
  rw [e0, e1, e2, e3]
  generalize hx : hex_digit (calculate_crc body / 16 % 16) = x1
  generalize hy : hex_digit (calculate_crc body % 16) = x2
  have e4 : store ('$' :: (body ++ ['*'])) (body.length + 2) (std_sprintf_02x (calculate_crc body) ++ ['\x00'])
      = '$' :: (body ++ ['*', x1, x2, '\x00']) := by
    have := store_at_length ('$' :: (body ++ ['*'])) [] [x1, x2, '\x00'] (body.length + 2) (by simp)
    simpa [std_sprintf_02x, hx, hy] using this
  rw [e4]
  have g5 : ('$' :: (body ++ ['*', x1, x2, '\x00'])).getD (body.length + 2) '\x00' = x1 := by
    have := List.getD_append_right ('$' :: (body ++ ['*'])) [x1, x2, '\x00'] '\x00' (body.length + 2) (by simp)
    simpa using this
  rw [g5]
  have e5 : store ('$' :: (body ++ ['*', x1, x2, '\x00'])) (body.length + 2) [toupper x1]
      = '$' :: (body ++ ['*', toupper x1, x2, '\x00']) := by
    have := store_at_length ('$' :: (body ++ ['*'])) [x1, x2, '\x00'] [toupper x1] (body.length + 2) (by simp)
    simpa using this
  rw [e5]
  have g6 : ('$' :: (body ++ ['*', toupper x1, x2, '\x00'])).getD (body.length + 3) '\x00' = x2 := by
    have := List.getD_append_right ('$' :: (body ++ ['*', toupper x1])) [x2, '\x00'] '\x00' (body.length + 3) (by simp)
    simpa using this
  rw [g6]
  have e6 : store ('$' :: (body ++ ['*', toupper x1, x2, '\x00'])) (body.length + 3) [toupper x2]
      = '$' :: (body ++ ['*', toupper x1, toupper x2, '\x00']) := by
    have := store_at_length ('$' :: (body ++ ['*', toupper x1])) [x2, '\x00'] [toupper x2] (body.length + 3) (by simp)
    simpa using this
  rw [e6]
  have e7 : store ('$' :: (body ++ ['*', toupper x1, toupper x2, '\x00'])) (body.length + 4) ['\r']
      = '$' :: (body ++ ['*', toupper x1, toupper x2, '\r']) := by
    have := store_at_length ('$' :: (body ++ ['*', toupper x1, toupper x2])) ['\x00'] ['\r'] (body.length + 4) (by simp)
    simpa using this
  rw [e7]
  have e8 : store ('$' :: (body ++ ['*', toupper x1, toupper x2, '\r'])) (body.length + 5) ['\n']
      = '$' :: (body ++ ['*', toupper x1, toupper x2, '\r', '\n']) := by
    have := store_at_length ('$' :: (body ++ ['*', toupper x1, toupper x2, '\r'])) [] ['\n'] (body.length + 5) (by simp)
    simpa using this
  rw [e8]
  have e9 : store ('$' :: (body ++ ['*', toupper x1, toupper x2, '\r', '\n'])) (body.length + 6) ['\x00']
      = '$' :: (body ++ ['*', toupper x1, toupper x2, '\r', '\n', '\x00']) := by
    have := store_at_length ('$' :: (body ++ ['*', toupper x1, toupper x2, '\r', '\n'])) [] ['\x00'] (body.length + 6) (by simp)
    simpa using this
  rw [e9]
  simp [check_digits, hx, hy]


theorem check_digits_eq (body : List Char) :
    check_digits body = upper_hex2 (xor_bytes body) := by
  have hlt := calculate_crc_lt body
  unfold check_digits upper_hex2
  rw [toupper_hex_digit _ (Nat.mod_lt _ (by norm_num)), toupper_hex_digit _ (Nat.mod_lt _ (by norm_num)),
    ← calculate_crc_eq_xor_bytes]
  have : calculate_crc body / 16 % 16 = calculate_crc body / 16 := Nat.mod_eq_of_lt (by omega)
  rw [this]

/-- C2: for every sentence of a supported type, with type specific body `body`,
the buffer written by `nmea_encode` holds `*` right behind the body, and the
two characters behind the `*` are the two-digit upper-case hexadecimal form of
the XOR of the bytes strictly between the leading `$` and that `*`. -/
theorem nmea_encode_check_digits (src : nmea_sentence_t (List Char)) (body : List Char)
    (h : encode_body src = some body) :
    (nmea_encode src).2[0]? = some '$' ∧
    (nmea_encode src).2[body.length + 1]? = some '*' ∧
    ((nmea_encode src).2.drop (body.length + 2)).take 2
      = upper_hex2 (xor_bytes (((nmea_encode src).2.drop 1).take body.length)) := by
  rw [nmea_encode_eq src body h]
  refine ⟨by simp, ?_, ?_⟩
  · have := @List.getElem?_append_right _ ('$' :: body)
      ('*' :: (check_digits body ++ ['\r', '\n', '\x00'])) (body.length + 1) (by simp)
    simpa using this
  · have e1 : List.drop (body.length + 2) ('$' :: (body ++ '*' :: (check_digits body ++ ['\r', '\n', '\x00'])))
        = check_digits body ++ ['\r', '\n', '\x00'] := by
      have := @List.drop_append _ ('$' :: (body ++ ['*'])) (check_digits body ++ ['\r', '\n', '\x00']) 0
      simp at this ⊢
    have e2 : List.take body.length (List.drop 1 ('$' :: (body ++ '*' :: (check_digits body ++ ['\r', '\n', '\x00']))))
        = body := by simp
    simp only []
    rw [e1, e2, ← check_digits_eq]
    simp [check_digits]

/-- The sentence of the NMEA documentation: its body is
`GPGGA,123519,4807.038,N,01131.000,E,1,08,0.9,545.4,M,46.9,M,,` and its check
digits are `47`. -/
theorem nmea_encode_check_digits_witness :
    encode_body example_gga
        = some "GPGGA,123519,4807.038,N,01131.000,E,1,08,0.9,545.4,M,46.9,M,,".toList ∧
    ((nmea_encode example_gga).2[0]? = some '$' ∧
     (nmea_encode example_gga).2[61 + 1]? = some '*' ∧
     ((nmea_encode example_gga).2.drop (61 + 2)).take 2
       = upper_hex2 (xor_bytes (((nmea_encode example_gga).2.drop 1).take 61))) ∧
    upper_hex2 (xor_bytes "GPGGA,123519,4807.038,N,01131.000,E,1,08,0.9,545.4,M,46.9,M,,".toList)
      = ['4', '7'] :=
  ⟨by rfl,
   nmea_encode_check_digits example_gga
     "GPGGA,123519,4807.038,N,01131.000,E,1,08,0.9,545.4,M,46.9,M,,".toList (by rfl),
   by rfl⟩

/-- C3: for every sentence of a supported type, with type specific body `body`,
`nmea_encode` returns the length of the body plus 6, and the buffer holds
exactly `$`, the body, `*`, two check characters, CR, LF and a NUL, the NUL at
the index returned. -/
theorem nmea_encode_layout (src : nmea_sentence_t (List Char)) (body : List Char)
    (h : encode_body src = some body) :
    (nmea_encode src).1 = ssize_t.val (body.length + 6) ∧
    (∃ c1 c2, (nmea_encode src).2 = '$' :: (body ++ ['*', c1, c2, '\r', '\n', '\x00'])) ∧
    (nmea_encode src).2.length = body.length + 6 + 1 ∧
    (nmea_encode src).2[body.length + 6]? = some '\x00' := by
  rw [nmea_encode_eq src body h]
  refine ⟨rfl, ⟨_, _, rfl⟩, by simp [check_digits], ?_⟩
  have := @List.getElem?_append_right _ ('$' :: (body ++ '*' :: check_digits body ++ ['\r', '\n']))
      (['\x00']) (body.length + 6) (by simp [check_digits])
  simpa [check_digits] using this

theorem nmea_encode_layout_witness :
    encode_body example_gga
        = some "GPGGA,123519,4807.038,N,01131.000,E,1,08,0.9,545.4,M,46.9,M,,".toList ∧
    ((nmea_encode example_gga).1 = ssize_t.val (61 + 6) ∧
     (∃ c1 c2, (nmea_encode example_gga).2
        = '$' :: ("GPGGA,123519,4807.038,N,01131.000,E,1,08,0.9,545.4,M,46.9,M,,".toList
            ++ ['*', c1, c2, '\r', '\n', '\x00'])) ∧
     (nmea_encode example_gga).2.length = 61 + 6 + 1 ∧
     (nmea_encode example_gga).2[61 + 6]? = some '\x00') :=
  ⟨by rfl, nmea_encode_layout example_gga
     "GPGGA,123519,4807.038,N,01131.000,E,1,08,0.9,545.4,M,46.9,M,,".toList (by rfl)⟩

/-- C7: `nmea_encode` returns `-ENOSYS` for every sentence whose type is none
of raw, GGA, GLL, GSA, GSV, RMC and VTG. -/
theorem nmea_encode_enosys (src : nmea_sentence_t (List Char))
    (h : src.type ≠ nmea_sentence_type_t.raw ∧ src.type ≠ nmea_sentence_type_t.gga ∧
      src.type ≠ nmea_sentence_type_t.gll ∧ src.type ≠ nmea_sentence_type_t.gsa ∧
      src.type ≠ nmea_sentence_type_t.gsv ∧ src.type ≠ nmea_sentence_type_t.rmc ∧
      src.type ≠ nmea_sentence_type_t.vtg) :
    (nmea_encode src).1 = ssize_t.neg errno_t.ENOSYS := by
  cases src <;> first | rfl | simp [nmea_sentence_t.type] at h

theorem nmea_encode_enosys_witness :
    (nmea_encode (nmea_sentence_t.other 7)).1 = ssize_t.neg errno_t.ENOSYS :=
  nmea_encode_enosys (nmea_sentence_t.other 7) (by simp [nmea_sentence_t.type])

/-! ## The decoder -/

set_option maxRecDepth 4000 in
theorem decode_gga_eq : decode_gga = decode_with gga_delims gga_of_tokens := by
  simp only [decode_gga, decode_with, gga_delims, strsep_seq, List.replicate, List.cons_append,
    List.nil_append, bind_assoc, pure_bind]
  rfl

set_option maxRecDepth 4000 in
theorem decode_gll_eq : decode_gll = decode_with gll_delims gll_of_tokens := by
  simp only [decode_gll, decode_with, gll_delims, strsep_seq, List.replicate, List.cons_append,
    List.nil_append, bind_assoc, pure_bind]
  rfl

set_option maxRecDepth 4000 in
theorem decode_gsa_eq : decode_gsa = decode_with gsa_delims gsa_of_tokens := by
  simp only [decode_gsa, decode_with, gsa_delims, strsep_seq, List.replicate, List.cons_append,
    List.nil_append, bind_assoc, pure_bind]
  rfl

set_option maxRecDepth 4000 in
theorem decode_gsv_eq : decode_gsv = decode_with gsv_delims gsv_of_tokens := by
  simp only [decode_gsv, decode_with, gsv_delims, strsep_seq, List.replicate, List.cons_append,
    List.nil_append, bind_assoc, pure_bind, for_each, decode_gsv_satellite,
    show (0 < 4 - 1) = True by simp, show (1 < 4 - 1) = True by simp,
    show (2 < 4 - 1) = True by simp, show (3 < 4 - 1) = False by simp, if_true, if_false]
  rfl

set_option maxRecDepth 4000 in
theorem decode_rmc_eq : decode_rmc = decode_with rmc_delims rmc_of_tokens := by
  simp only [decode_rmc, decode_with, rmc_delims, strsep_seq, List.replicate, List.cons_append,
    List.nil_append, bind_assoc, pure_bind]
  rfl

set_option maxRecDepth 4000 in
theorem decode_vtg_eq : decode_vtg = decode_with vtg_delims vtg_of_tokens := by
  simp only [decode_vtg, decode_with, vtg_delims, strsep_seq, List.replicate, List.cons_append,
    List.nil_append, bind_assoc, pure_bind]
  rfl

theorem run_bind {α β : Type} (x : decode_m α) (f : α → decode_m β)
    (st : List Char × Option Nat) :
    (x >>= f) st = match x st with
      | none => none
      | some (a, st) => f a st := rfl

theorem run_pure {α : Type} (a : α) (st : List Char × Option Nat) :
    (pure a : decode_m α) st = some (a, st) := rfl

theorem strsep_seq_cons (d : List Char) (ds : List (List Char)) (st : List Char × Option Nat) :
    strsep_seq (d :: ds) st =
      match strsep_m d st with
      | none => none
      | some (tok, st1) =>
        match strsep_seq ds st1 with
        | none => none
        | some (toks, st2) => some (tok :: toks, st2) := by
  show (strsep_m d >>= fun tok => strsep_seq ds >>= fun toks => pure (tok :: toks)) st = _
  rw [run_bind]
  cases h : strsep_m d st with
  | none => rfl
  | some r =>
    obtain ⟨tok, st1⟩ := r
    simp only [run_bind]
    cases strsep_seq ds st1 with
    | none => rfl
    | some r2 => rfl

/-- With `src_p` equal to `NULL` every `strsep` call returns `NULL`. -/
theorem strsep_seq_null (ds : List (List Char)) (mem : List Char) :
    strsep_seq ds (mem, none) = some (List.replicate ds.length none, (mem, none)) := by
  induction ds with
  | nil => rfl
  | cons d ds ih =>
    rw [strsep_seq_cons]
    simp [strsep_m, strsep, ih, List.replicate]

theorem strsep_scan_spec (d : Char) (hd : d ≠ '\x00') :
    ∀ (l text : List Char), c_str_scan l = some text →
      match after_delim d text with
      | some rest => ∃ k, strsep_scan [d] l = some (k, true) ∧
          c_str_scan (l.drop (k + 1)) = some rest
      | none => ∃ k, strsep_scan [d] l = some (k, false) := by
  intro l
  induction l with
  | nil => intro text h; simp [c_str_scan] at h
  | cons c cs ih =>
    intro text h
    unfold c_str_scan at h
    by_cases hc : c = '\x00'
    · simp only [hc, if_true, Option.some.injEq] at h
      subst h
      simp [after_delim, strsep_scan, hc]
    · simp only [hc, if_false] at h
      cases hcs : c_str_scan cs with
      | none => simp [hcs] at h
      | some t =>
        simp only [hcs, Option.some.injEq] at h
        subst h
        by_cases hcd : c = d
        · subst hcd
          simp only [after_delim, if_true]
          exact ⟨0, by simp [strsep_scan, hc], by simpa using hcs⟩
        · simp only [after_delim, hcd, if_false]
          have := ih t hcs
          cases ha : after_delim d t with
          | none =>
            simp only [ha] at this
            obtain ⟨k, hk⟩ := this
            exact ⟨k + 1, by simp [strsep_scan, hc, hcd, hk]⟩
          | some rest =>
            simp only [ha] at this
            obtain ⟨k, hk, hr⟩ := this
            exact ⟨k + 1, by simp [strsep_scan, hc, hcd, hk], by simpa using hr⟩

/-- The `strsep` calls for a list of delimiters, on a buffer where `src_p`
points to a NUL terminated string `text`: they are defined, and `src_p` is
`NULL` afterwards exactly when `text` does not hold the delimiters in order. -/
theorem strsep_seq_text (ds : List Char) (hds : ∀ d ∈ ds, d ≠ '\x00') :
    ∀ (mem : List Char) (p : Nat) (text : List Char),
      c_str_scan (mem.drop p) = some text →
      ∃ toks mem1 p1, strsep_seq (ds.map fun d => [d]) (mem, some p) = some (toks, (mem1, p1)) ∧
        (p1 = none ↔ separators_present ds text = false) := by
  induction ds with
  | nil =>
    intro mem p text _
    exact ⟨[], mem, some p, rfl, by simp [separators_present]⟩
  | cons d ds ih =>
    intro mem p text h
    have hd : d ≠ '\x00' := hds d (by simp)
    have hspec := strsep_scan_spec d hd (mem.drop p) text h
    simp only [List.map_cons, strsep_seq_cons, separators_present]
    cases ha : after_delim d text with
    | none =>
      simp only [ha] at hspec
      obtain ⟨k, hk⟩ := hspec
      refine ⟨some p :: List.replicate ds.length none, mem, none, ?_, by simp⟩
      simp [strsep_m, strsep, hk, strsep_seq_null]
    | some rest =>
      simp only [ha] at hspec
      obtain ⟨k, hk, hr⟩ := hspec
      have hr2 : c_str_scan ((mem.set (p + k) '\x00').drop (p + k + 1)) = some rest := by
        rw [List.drop_set_of_lt _ _ (by omega)]
        rw [List.drop_drop] at hr
        exact hr
      obtain ⟨toks, mem1, p1, hrun, hiff⟩ :=
        ih (fun d hd => hds d (by simp [hd])) (mem.set (p + k) '\x00') (p + k + 1) rest hr2
      refine ⟨some p :: toks, mem1, p1, ?_, hiff⟩
      simp [strsep_m, strsep, hk, hrun]

theorem c_or_eq_false (a b : Option Bool) :
    c_or a b = some false ↔ a = some false ∧ b = some false := by
  cases a with
  | none => simp [c_or]
  | some x => cases x <;> simp [c_or]

theorem c_or_ne_none (a b : Option Bool) (ha : a ≠ none) (hb : b ≠ none) : c_or a b ≠ none := by
  cases a with
  | none => exact absurd rfl ha
  | some x => cases x <;> simp [c_or, hb]

theorem differs_at_eq_false (src : List Char) (i : Nat) (c : Char) :
    differs_at src (some i) c = some false ↔ src[i]? = some c := by
  cases h : src[i]? with
  | none => simp [differs_at, h]
  | some x => simp [differs_at, h]

theorem differs_at_minus_eq_false (src : List Char) (size k : Nat) (c : Char) :
    differs_at src (size_minus size k) c = some false ↔ k ≤ size ∧ src[size - k]? = some c := by
  unfold size_minus
  by_cases hk : k ≤ size
  · simp [hk, differs_at_eq_false]
  · simp [hk, differs_at]

theorem differs_at_ne_none (src : List Char) (i : Nat) (c : Char) (hi : i < src.length) :
    differs_at src (some i) c ≠ none := by
  simp [differs_at, List.getElem?_eq_getElem hi]

theorem basic_validation_ok_iff (src : List Char) (size : Nat) :
    basic_validation_fails src size = some false ↔ framing_ok src size := by
  unfold basic_validation_fails framing_ok
  simp only [c_or_eq_false, differs_at_eq_false, differs_at_minus_eq_false]
  constructor
  · rintro ⟨h0, h1, ⟨h5, hs⟩, ⟨_, hr⟩, ⟨_, hn⟩, hz⟩
    exact ⟨h0, h1, h5, hs, hr, hn, hz⟩
  · rintro ⟨h0, h1, h5, hs, hr, hn, hz⟩
    exact ⟨h0, h1, ⟨h5, hs⟩, ⟨by omega, hr⟩, ⟨by omega, hn⟩, hz⟩

theorem basic_validation_defined (src : List Char) (size : Nat) (h5 : 5 ≤ size)
    (hlen : size < src.length) : basic_validation_fails src size ≠ none := by
  unfold basic_validation_fails size_minus
  simp only [show 5 ≤ size from h5, show 2 ≤ size by omega, show 1 ≤ size by omega, if_true]
  exact c_or_ne_none _ _ (differs_at_ne_none _ _ _ (by omega))
    (c_or_ne_none _ _ (differs_at_ne_none _ _ _ (by omega))
      (c_or_ne_none _ _ (differs_at_ne_none _ _ _ (by omega))
        (c_or_ne_none _ _ (differs_at_ne_none _ _ _ (by omega))
          (c_or_ne_none _ _ (differs_at_ne_none _ _ _ (by omega))
            (differs_at_ne_none _ _ _ hlen)))))

theorem nmea_decode_of_invalid (std_strtolb : List Char → Nat → Option (Int × Nat))
    (src : List Char) (size : Nat) (h : ¬ framing_ok src size) :
    nmea_decode std_strtolb src size = none ∨
      nmea_decode std_strtolb src size = some (ssize_t.neg errno_t.EPROTO, src, none) := by
  unfold nmea_decode
  cases hb : basic_validation_fails src size with
  | none => exact Or.inl rfl
  | some b =>
    cases b with
    | true => exact Or.inr rfl
    | false => exact absurd ((basic_validation_ok_iff src size).1 hb) h

/-- What the basic validation of `nmea_decode` does for a buffer without the
framing (`$G` at the start, `*` at index `size - 5`, CR at `size - 2`, LF at
`size - 1`, NUL at `size`): `-EPROTO`, with the buffer and `dst_p` untouched,
is the only result the call can have, and it is the result whenever `size` is
at least 5 and the buffer holds the index `size`, so that every read of the
validation lies inside the buffer. -/
theorem nmea_decode_framing (std_strtolb : List Char → Nat → Option (Int × Nat))
    (src : List Char) (size : Nat) (h : ¬ framing_ok src size) :
    (∀ r, nmea_decode std_strtolb src size = some r →
        r = (ssize_t.neg errno_t.EPROTO, src, none)) ∧
    (5 ≤ size → size < src.length →
        nmea_decode std_strtolb src size = some (ssize_t.neg errno_t.EPROTO, src, none)) := by
  have hcases := nmea_decode_of_invalid std_strtolb src size h
  constructor
  · intro r hr
    rcases hcases with h1 | h1
    · rw [h1] at hr; cases hr
    · rw [h1] at hr; cases hr; rfl
  · intro h5 hlen
    rcases hcases with h1 | h1
    · exfalso
      unfold nmea_decode at h1
      have hd := basic_validation_defined src size h5 hlen
      cases hb : basic_validation_fails src size with
      | none => exact hd hb
      | some b =>
        cases b with
        | true => simp [hb] at h1
        | false => exact h ((basic_validation_ok_iff src size).1 hb)
    · exact h1

theorem nmea_decode_framing_witness :
    ¬ framing_ok "$GPGGA,1,2*4A\n\r\x00".toList 15 ∧
    ((∀ r, nmea_decode strtolb_digits "$GPGGA,1,2*4A\n\r\x00".toList 15 = some r →
        r = (ssize_t.neg errno_t.EPROTO, "$GPGGA,1,2*4A\n\r\x00".toList, none)) ∧
     (5 ≤ 15 → 15 < "$GPGGA,1,2*4A\n\r\x00".toList.length →
        nmea_decode strtolb_digits "$GPGGA,1,2*4A\n\r\x00".toList 15
          = some (ssize_t.neg errno_t.EPROTO, "$GPGGA,1,2*4A\n\r\x00".toList, none))) :=
  ⟨by decide, nmea_decode_framing strtolb_digits "$GPGGA,1,2*4A\n\r\x00".toList 15 (by decide)⟩

/-- C5: `nmea_decode` does not return `-EPROTO` for every input without the
framing.  The buffer `$G` CR LF NUL with `size` 4, the length of the string in
it, has no `*` at index `size - 5`; the validation gets past `$` and `G`,
computes `size - 5` in the type `size_t`, where it wraps around, and reads
`src_p[size - 5]` outside the buffer, so that the call has no defined result,
whatever `std_strtolb` is. -/
theorem nmea_decode_short_sentence :
    "$G\r\n\x00".toList[4]? = some '\x00' ∧
    ¬ framing_ok "$G\r\n\x00".toList 4 ∧
    differs_at "$G\r\n\x00".toList (some 0) '$' = some false ∧
    differs_at "$G\r\n\x00".toList (some 1) 'G' = some false ∧
    size_minus 4 5 = none ∧
    basic_validation_fails "$G\r\n\x00".toList 4 = none ∧
    ∀ std_strtolb : List Char → Nat → Option (Int × Nat),
      nmea_decode std_strtolb "$G\r\n\x00".toList 4 = none :=
  ⟨by decide, by decide, by decide, by decide, by decide, by decide, fun _ => rfl⟩

theorem drop_of_getElem? (l : List Char) (n : Nat) (a : Char) (h : l[n]? = some a) :
    l.drop n = a :: l.drop (n + 1) := by
  obtain ⟨hn, rfl⟩ := List.getElem?_eq_some.1 h
  exact List.drop_eq_getElem_cons hn

theorem digit_value_ne_nul (base : Nat) (c : Char) (d : Nat) (h : digit_value base c = some d) :
    c ≠ '\x00' := by
  rintro rfl
  simp [digit_value] at h

/-- The string at `&src_p[size - 4]` of a framed buffer. -/
theorem c_str_crc (src : List Char) (size : Nat) (hfr : framing_ok src size) (h1 h2 : Char)
    (hd1 : src[size - 4]? = some h1) (hd2 : src[size - 3]? = some h2)
    (hn1 : h1 ≠ '\x00') (hn2 : h2 ≠ '\x00') :
    c_str src (some (size - 4)) = some [h1, h2, '\r', '\n'] := by
  obtain ⟨_, _, h5, _, hr, hn, hz⟩ := hfr
  have e1 := drop_of_getElem? src (size - 4) h1 hd1
  have e2 := drop_of_getElem? src (size - 3) h2 hd2
  have e3 := drop_of_getElem? src (size - 2) '\r' hr
  have e4 := drop_of_getElem? src (size - 1) '\n' hn
  have e5 := drop_of_getElem? src size '\x00' hz
  have a1 : size - 4 + 1 = size - 3 := by omega
  have a2 : size - 3 + 1 = size - 2 := by omega
  have a3 : size - 2 + 1 = size - 1 := by omega
  have a4 : size - 1 + 1 = size := by omega
  rw [a1] at e1; rw [a2] at e2; rw [a3] at e3; rw [a4] at e4
  simp only [c_str]
  rw [e1, e2, e3, e4, e5]
  simp [c_str_scan, hn1, hn2]

/-- C4: for every input that passes the framing checks and holds two
hexadecimal digits between `*` and CR, `nmea_decode` returns `-EPROTO` when
their value differs from the XOR of the bytes strictly between `$` and `*`.
The routine `std_strtolb` is a parameter, of which only this is used: if it
converts exactly the two digits, it yields their hexadecimal value. -/
theorem nmea_decode_checksum (std_strtolb : List Char → Nat → Option (Int × Nat))
    (src : List Char) (size : Nat) (h1 h2 : Char) (v : Nat)
    (hfr : framing_ok src size)
    (hd1 : src[size - 4]? = some h1) (hd2 : src[size - 3]? = some h2)
    (hv : hex_value2 h1 h2 = some v)
    (hsound : ∀ w, std_strtolb [h1, h2, '\r', '\n'] 16 = some (w, 2) → w = (v : Int))
    (hne : v ≠ xor_bytes ((src.drop 1).take (size - 6))) :
    nmea_decode std_strtolb src size = some (ssize_t.neg errno_t.EPROTO, src, none) := by
  have hn : h1 ≠ '\x00' ∧ h2 ≠ '\x00' := by
    unfold hex_value2 at hv
    cases e1 : digit_value 16 h1 with
    | none => simp [e1] at hv
    | some d1 =>
      cases e2 : digit_value 16 h2 with
      | none => simp [e1, e2] at hv
      | some d2 => exact ⟨digit_value_ne_nul _ _ _ e1, digit_value_ne_nul _ _ _ e2⟩
  unfold nmea_decode
  rw [(basic_validation_ok_iff src size).2 hfr, c_str_crc src size hfr h1 h2 hd1 hd2 hn.1 hn.2]
  simp only []
  cases hs : std_strtolb [h1, h2, '\r', '\n'] 16 with
  | none => rfl
  | some r =>
    obtain ⟨w, k⟩ := r
    simp only []
    by_cases hk : k = 2
    · subst hk
      have hw := hsound w hs
      subst hw
      rw [calculate_crc_eq_xor_bytes]
      have : ((xor_bytes ((src.drop 1).take (size - 6)) : Nat) : Int) ≠ (v : Int) := by
        intro hc
        exact hne (Int.ofNat.inj hc).symm
      rw [if_neg (by simp), if_pos this]
    · rw [if_pos hk]

theorem nmea_decode_checksum_witness :
    nmea_decode strtolb_digits "$GPGGA,1,2*48\r\n\x00".toList 15
      = some (ssize_t.neg errno_t.EPROTO, "$GPGGA,1,2*48\r\n\x00".toList, none) :=
  nmea_decode_checksum strtolb_digits "$GPGGA,1,2*48\r\n\x00".toList 15 '4' '8' 72
    (by decide) (by rfl) (by rfl) (by rfl)
    (by
      intro w hw
      have e : strtolb_digits ['4', '8', '\r', '\n'] 16 = some (72, 2) := by rfl
      rw [e] at hw
      cases hw
      rfl)
    (by decide)

theorem c_str_scan_defined (l : List Char) :
    ∀ (n : Nat), l[n]? = some '\x00' → ∃ text, c_str_scan l = some text := by
  induction l with
  | nil => intro n h; simp at h
  | cons c cs ih =>
    intro n h
    by_cases hc : c = '\x00'
    · exact ⟨[], by simp [c_str_scan, hc]⟩
    · cases n with
      | zero => simp at h; exact absurd h hc
      | succ m =>
        simp only [List.getElem?_cons_succ] at h
        obtain ⟨t, ht⟩ := ih m h
        exact ⟨c :: t, by simp [c_str_scan, hc, ht]⟩

theorem c_str_defined (src : List Char) (n p : Nat) (h : src[n]? = some '\x00') (hp : p ≤ n) :
    ∃ text, c_str src (some p) = some text := by
  apply c_str_scan_defined (src.drop p) (n - p)
  rw [List.getElem?_drop]
  have : p + (n - p) = n := by omega
  rw [this]
  exact h

theorem after_delim_count (d : Char) :
    ∀ (text rest : List Char), after_delim d text = some rest →
      text.count d = rest.count d + 1 := by
  intro text
  induction text with
  | nil => intro rest h; simp [after_delim] at h
  | cons c cs ih =>
    intro rest h
    unfold after_delim at h
    by_cases hc : c = d
    · subst hc
      simp only [if_true, Option.some.injEq] at h
      subst h
      simp
    · simp only [hc, if_false] at h
      have := ih rest h
      rw [List.count_cons_of_ne (Ne.symm hc)]
      exact this

theorem separators_present_count (d : Char) (tail : List Char) :
    ∀ (n : Nat) (text : List Char),
      separators_present (List.replicate n d ++ tail) text = true → n ≤ text.count d := by
  intro n
  induction n with
  | zero => intro text _; exact Nat.zero_le _
  | succ m ih =>
    intro text h
    simp only [List.replicate_succ, List.cons_append, separators_present] at h
    cases ha : after_delim d text with
    | none => simp [ha] at h
    | some rest =>
      simp only [ha] at h
      have h1 := ih rest h
      have h2 := after_delim_count d text rest ha
      omega

theorem decode_with_run (delims : List (List Char))
    (of_tokens : List (Option Nat) → nmea_sentence_t (Option Nat))
    (st st1 : List Char × Option Nat) (toks : List (Option Nat))
    (h : strsep_seq delims st = some (toks, st1)) :
    decode_with delims of_tokens st
      = some ((all_values_parsed st1.2, of_tokens toks), st1) := by
  unfold decode_with
  rw [run_bind, h]
  rfl

theorem run_decode_with (delims : List (List Char))
    (of_tokens : List (Option Nat) → nmea_sentence_t (Option Nat))
    (mem mem1 : List Char) (p : Nat) (p1 : Option Nat) (toks : List (Option Nat))
    (h : strsep_seq delims (mem, some p) = some (toks, (mem1, p1))) :
    run_decode (decode_with delims of_tokens) mem p
      = some (all_values_parsed p1, mem1, some (of_tokens toks)) := by
  unfold run_decode
  rw [decode_with_run delims of_tokens _ _ _ h]

theorem typed_decoder_eq (ty : nmea_sentence_type_t) (hty : is_typed ty = true) :
    typed_decoder ty = decode_with
      ((List.replicate (required_commas ty) ',' ++ ['*']).map fun d => [d])
      (typed_of_tokens ty) := by
  cases ty with
  | gga => exact decode_gga_eq
  | gll => exact decode_gll_eq
  | gsa => exact decode_gsa_eq
  | gsv => exact decode_gsv_eq
  | rmc => exact decode_rmc_eq
  | vtg => exact decode_vtg_eq
  | raw => exact absurd hty (by decide)
  | other v => exact absurd hty (by simp [is_typed])

theorem nmea_decode_dispatch (std_strtolb : List Char → Nat → Option (Int × Nat))
    (src : List Char) (size : Nat) (ty : nmea_sentence_type_t) (crc_str : List Char)
    (hfr : framing_ok src size) (hstr : c_str src (some (size - 4)) = some crc_str)
    (hcrc : std_strtolb crc_str 16
      = some ((calculate_crc ((src.drop 1).take (size - 6)) : Int), 2))
    (hty : is_typed ty = true) (htag : (src.drop 3).take 4 = type_tag ty) :
    nmea_decode std_strtolb src size = run_decode (typed_decoder ty) src 7 := by
  unfold nmea_decode
  rw [(basic_validation_ok_iff src size).2 hfr, hstr]
  simp only []
  rw [hcrc]
  simp only []
  rw [if_neg (by simp), if_neg (by simp)]
  unfold memcmp4_eq
  rw [htag]
  cases ty with
  | gga => rfl
  | gll => rfl
  | gsa => rfl
  | gsv => rfl
  | rmc => rfl
  | vtg => rfl
  | raw => exact absurd hty (by decide)
  | other v => exact absurd hty (by simp [is_typed])

theorem nmea_decode_crc_cases (std_strtolb : List Char → Nat → Option (Int × Nat))
    (src : List Char) (size : Nat) (hfr : framing_ok src size) :
    nmea_decode std_strtolb src size = some (ssize_t.neg errno_t.EPROTO, src, none) ∨
    ∃ crc_str, c_str src (some (size - 4)) = some crc_str ∧
      std_strtolb crc_str 16
        = some ((calculate_crc ((src.drop 1).take (size - 6)) : Int), 2) := by
  obtain ⟨crc_str, hstr⟩ := c_str_defined src size (size - 4) hfr.2.2.2.2.2.2 (by omega)
  cases hs : std_strtolb crc_str 16 with
  | none =>
    left
    unfold nmea_decode
    rw [(basic_validation_ok_iff src size).2 hfr, hstr]
    simp only []
    rw [hs]
  | some r =>
    obtain ⟨w, k⟩ := r
    by_cases hk : k = 2
    · by_cases hw : (calculate_crc ((src.drop 1).take (size - 6)) : Int) = w
      · right
        exact ⟨crc_str, hstr, by rw [hs, hk, hw]⟩
      · left
        unfold nmea_decode
        rw [(basic_validation_ok_iff src size).2 hfr, hstr]
        simp only []
        rw [hs]
        simp only []
        rw [if_neg (by simp [hk]), if_pos hw]
    · left
      unfold nmea_decode
      rw [(basic_validation_ok_iff src size).2 hfr, hstr]
      simp only []
      rw [hs]
      simp only []
      rw [if_pos hk]

/-- C6: for each typed sentence (GGA, GLL, GSA, GSV, RMC, VTG) with valid
framing, `nmea_decode` returns `-EPROTO` when the text behind the type tag
holds fewer commas than the type requires (GGA 13, GLL 6, GSA 16, GSV 18,
RMC 10, VTG 7), or does not hold these commas followed by a `*`; this holds
whether or not the checksum is valid. -/
theorem nmea_decode_missing_separator (std_strtolb : List Char → Nat → Option (Int × Nat))
    (src : List Char) (size : Nat) (ty : nmea_sentence_type_t) (text : List Char)
    (hty : is_typed ty = true) (hfr : framing_ok src size)
    (htag : (src.drop 3).take 4 = type_tag ty)
    (htext : c_str src (some 7) = some text)
    (hfew : text.count ',' < required_commas ty ∨
      separators_present (List.replicate (required_commas ty) ',' ++ ['*']) text = false) :
    ∃ mem dst, nmea_decode std_strtolb src size = some (ssize_t.neg errno_t.EPROTO, mem, dst) := by
  have hsep : separators_present (List.replicate (required_commas ty) ',' ++ ['*']) text
      = false := by
    rcases hfew with h | h
    · cases hp : separators_present (List.replicate (required_commas ty) ',' ++ ['*']) text with
      | false => rfl
      | true =>
        have := separators_present_count ',' ['*'] (required_commas ty) text hp
        omega
    · exact h
  rcases nmea_decode_crc_cases std_strtolb src size hfr with h | ⟨crc_str, hstr, hcrc⟩
  · exact ⟨src, none, h⟩
  · rw [nmea_decode_dispatch std_strtolb src size ty crc_str hfr hstr hcrc hty htag,
      typed_decoder_eq ty hty]
    have hds : ∀ d ∈ List.replicate (required_commas ty) ',' ++ ['*'], d ≠ '\x00' := by
      intro d hd
      rcases List.mem_append.1 hd with h | h
      · rw [(List.mem_replicate.1 h).2]; decide
      · rw [List.mem_singleton.1 h]; decide
    obtain ⟨toks, mem1, p1, hrun, hiff⟩ :=
      strsep_seq_text (List.replicate (required_commas ty) ',' ++ ['*']) hds src 7 text htext
    rw [run_decode_with _ _ _ _ _ _ _ hrun, hiff.2 hsep]
    exact ⟨mem1, _, rfl⟩

theorem nmea_decode_missing_separator_witness :
    ∃ mem dst, nmea_decode strtolb_digits "$GPGGA,1,2*55\r\n\x00".toList 15
      = some (ssize_t.neg errno_t.EPROTO, mem, dst) :=
  nmea_decode_missing_separator strtolb_digits "$GPGGA,1,2*55\r\n\x00".toList 15
    nmea_sentence_type_t.gga "1,2*55\r\n".toList (by rfl) (by decide) (by rfl) (by rfl)
    (Or.inl (by decide))

theorem strsep_scan_hit (d : Char) (hd : d ≠ '\x00') (rest : List Char) :
    ∀ (f : List Char), (∀ c ∈ f, c ≠ '\x00' ∧ c ≠ d) →
      strsep_scan [d] (f ++ d :: rest) = some (f.length, true) := by
  intro f
  induction f with
  | nil => intro _; simp [strsep_scan, hd]
  | cons c cs ih =>
    intro h
    have hc := h c (by simp)
    have := ih (fun x hx => h x (by simp [hx]))
    simp [strsep_scan, hc.1, hc.2, this]

theorem c_str_scan_hit (rest : List Char) :
    ∀ (f : List Char), (∀ c ∈ f, c ≠ '\x00') →
      c_str_scan (f ++ '\x00' :: rest) = some f := by
  intro f
  induction f with
  | nil => intro _; simp [c_str_scan]
  | cons c cs ih =>
    intro h
    have hc := h c (by simp)
    have := ih (fun x hx => h x (by simp [hx]))
    simp [c_str_scan, hc, this]

theorem set_layout (pre f rest : List Char) (d : Char) :
    (pre ++ (f ++ d :: rest)).set (pre.length + f.length) '\x00'
      = pre ++ (f ++ '\x00' :: rest) := by
  rw [← List.append_assoc, ← List.append_assoc, ← List.length_append]
  rw [List.set_append_right _ _ (Nat.le_refl _)]
  simp

theorem strsep_layout (pre f rest : List Char) (d : Char) (hd : d ≠ '\x00')
    (hf : ∀ c ∈ f, c ≠ '\x00' ∧ c ≠ d) :
    strsep (pre ++ (f ++ d :: rest)) (some pre.length) [d]
      = some (some pre.length, pre ++ (f ++ '\x00' :: rest),
          some (pre.length + f.length + 1)) := by
  unfold strsep
  simp only [List.drop_left]
  rw [strsep_scan_hit d hd rest f hf]
  simp only []
  rw [set_layout]

theorem strsep_seq_layout :
    ∀ (toks : List (List Char × Char)) (pre post : List Char), (∀ t ∈ toks, token_ok t) →
      strsep_seq (toks.map fun t => [t.2]) (pre ++ (layout toks ++ post), some pre.length)
        = some (offsets pre.length toks,
            (pre ++ (zeroed toks ++ post), some (pre.length + (layout toks).length))) := by
  intro toks
  induction toks with
  | nil => intro pre post _; rfl
  | cons t ts ih =>
    intro pre post h
    obtain ⟨hd, hf⟩ := h t (by simp)
    have hts : ∀ x ∈ ts, token_ok x := fun x hx => h x (by simp [hx])
    have hstep := strsep_layout pre t.1 (layout ts ++ post) t.2 hd hf
    have hrest := ih (pre ++ (t.1 ++ ['\x00'])) post hts
    have e1 : pre ++ (t.1 ++ ['\x00']) ++ (layout ts ++ post)
        = pre ++ (t.1 ++ '\x00' :: (layout ts ++ post)) := by simp
    have e2 : (pre ++ (t.1 ++ ['\x00'])).length = pre.length + t.1.length + 1 := by
      simp; omega
    have e3 : pre ++ (t.1 ++ ['\x00']) ++ (zeroed ts ++ post)
        = pre ++ (zeroed (t :: ts) ++ post) := by simp [zeroed]
    have e4 : pre.length + t.1.length + 1 + (layout ts).length
        = pre.length + (layout (t :: ts)).length := by
      simp [layout]; omega
    rw [e1, e2, e3, e4] at hrest
    rw [List.map_cons, strsep_seq_cons]
    have e5 : pre ++ (layout (t :: ts) ++ post) = pre ++ (t.1 ++ t.2 :: (layout ts ++ post)) := by
      simp [layout]
    simp only [strsep_m, e5, hstep, hrest, offsets]

theorem c_str_offsets :
    ∀ (toks : List (List Char × Char)) (pre post : List Char), (∀ t ∈ toks, token_ok t) →
      (offsets pre.length toks).map (c_str (pre ++ (zeroed toks ++ post)))
        = toks.map fun t => some t.1 := by
  intro toks
  induction toks with
  | nil => intro pre post _; rfl
  | cons t ts ih =>
    intro pre post h
    obtain ⟨_, hf⟩ := h t (by simp)
    have hts : ∀ x ∈ ts, token_ok x := fun x hx => h x (by simp [hx])
    have hrest := ih (pre ++ (t.1 ++ ['\x00'])) post hts
    have e2 : (pre ++ (t.1 ++ ['\x00'])).length = pre.length + t.1.length + 1 := by
      simp; omega
    have e3 : pre ++ (t.1 ++ ['\x00']) ++ (zeroed ts ++ post)
        = pre ++ (zeroed (t :: ts) ++ post) := by simp [zeroed]
    rw [e2, e3] at hrest
    simp only [offsets, List.map_cons, hrest]
    congr 1
    simp only [c_str, List.drop_left, zeroed, List.append_assoc, List.cons_append]
    exact c_str_scan_hit _ t.1 (fun c hc => (hf c hc).1)

theorem field_tokens_body (s : nmea_sentence_t (List Char)) (body : List Char)
    (hty : is_typed s.type = true) (hb : encode_body s = some body) :
    body ++ ['*'] = 'G' :: 'P' :: (type_tag s.type ++ layout (field_tokens s)) := by
  cases s with
  | gga s => cases hb; simp [encode_gga, std_sprintf, field_tokens, nmea_sentence_t.fields, layout, type_tag, nmea_sentence_t.type]
  | gll s => cases hb; simp [encode_gll, std_sprintf, field_tokens, nmea_sentence_t.fields, layout, type_tag, nmea_sentence_t.type]
  | gsa s => cases hb; simp [encode_gsa, std_sprintf, field_tokens, nmea_sentence_t.fields, layout, type_tag, nmea_sentence_t.type, comma_separated]
  | gsv s => cases hb; simp [encode_gsv, std_sprintf, field_tokens, nmea_sentence_t.fields, layout, type_tag, nmea_sentence_t.type, comma_separated, nmea_satellite_t.fields]
  | rmc s => cases hb; simp [encode_rmc, std_sprintf, field_tokens, nmea_sentence_t.fields, layout, type_tag, nmea_sentence_t.type, comma_separated]
  | vtg s => cases hb; simp [encode_vtg, std_sprintf, field_tokens, nmea_sentence_t.fields, layout, type_tag, nmea_sentence_t.type, comma_separated]
  | raw s => exact absurd hty (by simp [is_typed, nmea_sentence_t.type])
  | other v => exact absurd hty (by simp [is_typed, nmea_sentence_t.type])

theorem field_tokens_delims (s : nmea_sentence_t (List Char)) (hty : is_typed s.type = true) :
    (field_tokens s).map (fun t => [t.2])
      = (List.replicate (required_commas s.type) ',' ++ ['*']).map fun d => [d] := by
  cases s with
  | gga s => rfl
  | gll s => rfl
  | gsa s => rfl
  | gsv s => rfl
  | rmc s => rfl
  | vtg s => rfl
  | raw s => exact absurd hty (by simp [is_typed, nmea_sentence_t.type])
  | other v => exact absurd hty (by simp [is_typed, nmea_sentence_t.type])

theorem comma_separated_ok :
    ∀ (fs : List (List Char)),
      (∀ f ∈ fs, ∀ c ∈ f, c ≠ ',' ∧ c ≠ '*' ∧ c ≠ '\x00') →
      ∀ t ∈ comma_separated fs, token_ok t := by
  intro fs
  induction fs with
  | nil => intro _ t ht; simp [comma_separated] at ht
  | cons f fs ih =>
    intro h t ht
    have hf := h f (by simp)
    cases fs with
    | nil =>
      simp only [comma_separated, List.mem_singleton] at ht
      subst ht
      exact ⟨(by decide : '*' ≠ '\x00'), fun c hc => ⟨(hf c hc).2.2, (hf c hc).2.1⟩⟩
    | cons g gs =>
      simp only [comma_separated, List.mem_cons] at ht
      rcases ht with ht | ht
      · subst ht
        exact ⟨(by decide : ',' ≠ '\x00'), fun c hc => ⟨(hf c hc).2.2, (hf c hc).1⟩⟩
      · exact ih (fun x hx => h x (by simp [hx])) t (by simpa [comma_separated] using ht)

theorem field_tokens_ok (s : nmea_sentence_t (List Char))
    (hf : ∀ f ∈ s.fields, ∀ c ∈ f, c ≠ ',' ∧ c ≠ '*' ∧ c ≠ '\x00') :
    ∀ t ∈ field_tokens s, token_ok t := by
  have hmap : ∀ t ∈ s.fields.map (fun f => (f, ',')), token_ok t := by
    intro t ht
    obtain ⟨f, hfm, rfl⟩ := List.mem_map.1 ht
    exact ⟨(by decide : ',' ≠ '\x00'), fun c hc => ⟨(hf f hfm c hc).2.2, (hf f hfm c hc).1⟩⟩
  have hempty : ∀ d : Char, d ≠ '\x00' → token_ok (([] : List Char), d) :=
    fun d hd => ⟨hd, fun c hc => by simp at hc⟩
  intro t ht
  cases s with
  | gga s =>
    simp only [field_tokens, List.mem_append, List.mem_cons, List.mem_singleton,
      List.not_mem_nil, or_false] at ht
    rcases ht with ht | ht | ht
    · exact hmap t ht
    · subst ht; exact hempty ',' (by decide)
    · subst ht; exact hempty '*' (by decide)
  | gll s =>
    simp only [field_tokens, List.mem_append, List.mem_singleton] at ht
    rcases ht with ht | ht
    · exact hmap t ht
    · subst ht; exact hempty '*' (by decide)
  | gsa s => exact comma_separated_ok _ hf t ht
  | gsv s => exact comma_separated_ok _ hf t ht
  | rmc s => exact comma_separated_ok _ hf t ht
  | vtg s => exact comma_separated_ok _ hf t ht
  | raw s => exact comma_separated_ok _ hf t ht
  | other v => exact comma_separated_ok _ hf t ht

/-- The sentence built from the tokens of the text of a typed sentence has the
type of the sentence, and its members are the first tokens. -/
theorem typed_of_tokens_fields (s : nmea_sentence_t (List Char))
    (hty : is_typed s.type = true) (p : Nat) :
    (typed_of_tokens s.type (offsets p (field_tokens s))).type = s.type ∧
    (typed_of_tokens s.type (offsets p (field_tokens s))).fields
      = (offsets p (field_tokens s)).take s.fields.length := by
  cases s with
  | gga s => exact ⟨rfl, rfl⟩
  | gll s => exact ⟨rfl, rfl⟩
  | gsa s => exact ⟨rfl, rfl⟩
  | gsv s => exact ⟨rfl, rfl⟩
  | rmc s => exact ⟨rfl, rfl⟩
  | vtg s => exact ⟨rfl, rfl⟩
  | raw s => exact absurd hty (by simp [is_typed, nmea_sentence_t.type])
  | other v => exact absurd hty (by simp [is_typed, nmea_sentence_t.type])

theorem field_tokens_fields (s : nmea_sentence_t (List Char)) (hty : is_typed s.type = true) :
    ((field_tokens s).map fun t => some t.1).take s.fields.length = s.fields.map some := by
  cases s with
  | gga s => rfl
  | gll s => rfl
  | gsa s => rfl
  | gsv s => rfl
  | rmc s => rfl
  | vtg s => rfl
  | raw s => exact absurd hty (by simp [is_typed, nmea_sentence_t.type])
  | other v => exact absurd hty (by simp [is_typed, nmea_sentence_t.type])

theorem upper_hex_digit_ne_nul (d : Nat) (hd : d < 16) : upper_hex_digit d ≠ '\x00' := by
  interval_cases d <;> decide

theorem encoded_framing (body : List Char) (c1 c2 : Char) (hG : body[0]? = some 'G') :
    framing_ok ('$' :: (body ++ ['*', c1, c2, '\r', '\n', '\x00'])) (body.length + 6) := by
  have hget : ∀ k : Nat, ('$' :: (body ++ ['*', c1, c2, '\r', '\n', '\x00']))[body.length + 1 + k]?
      = ['*', c1, c2, '\r', '\n', '\x00'][k]? := by
    intro k
    have := @List.getElem?_append_right _ ('$' :: body)
      (['*', c1, c2, '\r', '\n', '\x00']) (body.length + 1 + k) (by simp)
    simpa using this
  have hlen : 0 < body.length := by
    cases body with
    | nil => simp at hG
    | cons a as => simp
  refine ⟨by simp, ?_, by omega, ?_, ?_, ?_, ?_⟩
  · rw [List.getElem?_cons_succ, List.getElem?_append_left hlen]
    exact hG
  · have := hget 0
    simpa using this
  · have := hget 3
    rw [show body.length + 6 - 2 = body.length + 1 + 3 by omega]
    simpa using this
  · have := hget 4
    rw [show body.length + 6 - 1 = body.length + 1 + 4 by omega]
    simpa using this
  · have := hget 5
    rw [show body.length + 6 = body.length + 1 + 5 by omega]
    simpa using this

theorem encoded_digits (body : List Char) (c1 c2 : Char) :
    ('$' :: (body ++ ['*', c1, c2, '\r', '\n', '\x00']))[body.length + 6 - 4]? = some c1 ∧
    ('$' :: (body ++ ['*', c1, c2, '\r', '\n', '\x00']))[body.length + 6 - 3]? = some c2 := by
  have hget : ∀ k : Nat, ('$' :: (body ++ ['*', c1, c2, '\r', '\n', '\x00']))[body.length + 1 + k]?
      = ['*', c1, c2, '\r', '\n', '\x00'][k]? := by
    intro k
    have := @List.getElem?_append_right _ ('$' :: body)
      (['*', c1, c2, '\r', '\n', '\x00']) (body.length + 1 + k) (by simp)
    simpa using this
  constructor
  · have := hget 1
    rw [show body.length + 6 - 4 = body.length + 1 + 1 by omega]
    simpa using this
  · have := hget 2
    rw [show body.length + 6 - 3 = body.length + 1 + 2 by omega]
    simpa using this

/-- C1: for every sentence of type GGA, GLL, GSA, GSV, RMC or VTG whose
fields are C strings holding neither `,` nor `*`, `nmea_decode` applied to the
buffer written by `nmea_encode`, with the value `nmea_encode` returned as
size, returns 0 and yields a sentence of the same type whose fields point to
strings equal to the fields of the original sentence.  The routine
`std_strtolb` is a parameter, of which only this is used: in base 16 it
converts two upper-case hexadecimal digits followed by CR LF to their value
and stops behind the second digit. -/
theorem nmea_decode_encode (std_strtolb : List Char → Nat → Option (Int × Nat))
    (hstr : ∀ v, v < 256 → std_strtolb (upper_hex2 v ++ ['\r', '\n']) 16 = some ((v : Int), 2))
    (s : nmea_sentence_t (List Char)) (hty : is_typed s.type = true)
    (hf : ∀ f ∈ s.fields, ∀ c ∈ f, c ≠ ',' ∧ c ≠ '*' ∧ c ≠ '\x00') :
    ∃ n mem dst, (nmea_encode s).1 = ssize_t.val n ∧
      nmea_decode std_strtolb (nmea_encode s).2 n = some (ssize_t.val 0, mem, some dst) ∧
      dst.type = s.type ∧ dst.fields.map (c_str mem) = s.fields.map some := by
  obtain ⟨body, hb⟩ : ∃ body, encode_body s = some body := by
    cases s with
    | other v => exact absurd hty (by simp [is_typed, nmea_sentence_t.type])
    | _ => exact ⟨_, rfl⟩
  have hbody := field_tokens_body s body hty hb
  have hcrc_lt := calculate_crc_lt body
  have hcd : check_digits body = upper_hex2 (calculate_crc body) := by
    rw [check_digits_eq, calculate_crc_eq_xor_bytes]
  generalize hc1 : upper_hex_digit (calculate_crc body / 16) = c1 at hcd
  generalize hc2 : upper_hex_digit (calculate_crc body % 16) = c2 at hcd
  have hcd2 : check_digits body = [c1, c2] := by rw [hcd]; simp [upper_hex2, hc1, hc2]
  have hn1 : c1 ≠ '\x00' := by rw [← hc1]; exact upper_hex_digit_ne_nul _ (by omega)
  have hn2 : c2 ≠ '\x00' := by rw [← hc2]; exact upper_hex_digit_ne_nul _ (Nat.mod_lt _ (by norm_num))
  have hG : body[0]? = some 'G' := by
    cases body with
    | nil => simp at hbody
    | cons a as =>
      simp only [List.cons_append, List.cons.injEq] at hbody
      simp [hbody.1]
  have henc := nmea_encode_eq s body hb
  rw [hcd2] at henc
  have hbuf : (nmea_encode s).2 = '$' :: (body ++ ['*', c1, c2, '\r', '\n', '\x00']) := by
    rw [henc]; simp
  have hfr := encoded_framing body c1 c2 hG
  obtain ⟨hd1, hd2⟩ := encoded_digits body c1 c2
  have hstr1 := c_str_crc _ _ hfr c1 c2 hd1 hd2 hn1 hn2
  have hslice : (('$' :: (body ++ ['*', c1, c2, '\r', '\n', '\x00'])).drop 1).take
      (body.length + 6 - 6) = body := by simp
  have hcrc : std_strtolb [c1, c2, '\r', '\n'] 16
      = some ((calculate_crc ((('$' :: (body ++ ['*', c1, c2, '\r', '\n', '\x00'])).drop 1).take
          (body.length + 6 - 6)) : Int), 2) := by
    rw [hslice]
    have := hstr (calculate_crc body) hcrc_lt
    simpa [upper_hex2, hc1, hc2] using this
  have hlayout : '$' :: (body ++ ['*', c1, c2, '\r', '\n', '\x00'])
      = ('$' :: 'G' :: 'P' :: type_tag s.type)
          ++ (layout (field_tokens s) ++ [c1, c2, '\r', '\n', '\x00']) := by
    have : body ++ ['*', c1, c2, '\r', '\n', '\x00']
        = (body ++ ['*']) ++ [c1, c2, '\r', '\n', '\x00'] := by simp
    rw [this, hbody]
    simp
  have hpre : ('$' :: 'G' :: 'P' :: type_tag s.type).length = 7 := by
    cases s with
    | raw s => exact absurd hty (by simp [is_typed, nmea_sentence_t.type])
    | other v => exact absurd hty (by simp [is_typed, nmea_sentence_t.type])
    | _ => rfl
  have htag : (('$' :: (body ++ ['*', c1, c2, '\r', '\n', '\x00'])).drop 3).take 4
      = type_tag s.type := by
    rw [hlayout]
    have h4 : (type_tag s.type).length = 4 := by simpa using hpre
    simp only [List.cons_append, List.drop_succ_cons, List.drop_zero]
    rw [List.take_append_of_le_length (by omega), ← h4, List.take_length]
  have hok := field_tokens_ok s hf
  have hrun := strsep_seq_layout (field_tokens s) ('$' :: 'G' :: 'P' :: type_tag s.type)
    [c1, c2, '\r', '\n', '\x00'] hok
  rw [hpre, ← hlayout, field_tokens_delims s hty] at hrun
  have hdec := nmea_decode_dispatch std_strtolb _ _ s.type _ hfr hstr1 hcrc hty htag
  rw [typed_decoder_eq s.type hty, run_decode_with _ _ _ _ _ _ _ hrun] at hdec
  have hfields := typed_of_tokens_fields s hty 7
  have hcstr := c_str_offsets (field_tokens s) ('$' :: 'G' :: 'P' :: type_tag s.type)
    [c1, c2, '\r', '\n', '\x00'] hok
  rw [hpre] at hcstr
  refine ⟨body.length + 6,
    ('$' :: 'G' :: 'P' :: type_tag s.type)
      ++ (zeroed (field_tokens s) ++ [c1, c2, '\r', '\n', '\x00']),
    typed_of_tokens s.type (offsets 7 (field_tokens s)), by rw [henc], ?_, hfields.1, ?_⟩
  · rw [hbuf, hdec]
    rfl
  · rw [hfields.2, List.map_take, hcstr]
    exact field_tokens_fields s hty

set_option maxRecDepth 100000 in
theorem strtolb_digits_hex : ∀ v, v < 256 →
    strtolb_digits (upper_hex2 v ++ ['\r', '\n']) 16 = some ((v : Int), 2) := by
  decide

theorem nmea_decode_encode_witness :
    is_typed example_gga.type = true ∧
    (∀ f ∈ example_gga.fields, ∀ c ∈ f, c ≠ ',' ∧ c ≠ '*' ∧ c ≠ '\x00') ∧
    ∃ n mem dst, (nmea_encode example_gga).1 = ssize_t.val n ∧
      nmea_decode strtolb_digits (nmea_encode example_gga).2 n
        = some (ssize_t.val 0, mem, some dst) ∧
      dst.type = example_gga.type ∧ dst.fields.map (c_str mem) = example_gga.fields.map some :=
  ⟨by rfl, by decide,
   nmea_decode_encode strtolb_digits strtolb_digits_hex example_gga (by rfl) (by decide)⟩

/-! ## Positions -/

theorem decimal_value_aux (ds : List Char) (hds : ∀ c ∈ ds, is_digit c = true) :
    ∀ v, ds.foldl (fun v c => 10 * v + (c.toNat - 48)) v < (v + 1) * 10 ^ ds.length := by
  induction ds with
  | nil => intro v; simp
  | cons c cs ih =>
    intro v
    have hc := hds c (by simp)
    simp only [is_digit, decide_eq_true_eq] at hc
    have := ih (fun x hx => hds x (by simp [hx])) (10 * v + (c.toNat - 48))
    simp only [List.foldl_cons, List.length_cons]
    calc _ < (10 * v + (c.toNat - 48) + 1) * 10 ^ cs.length := this
      _ ≤ ((v + 1) * 10) * 10 ^ cs.length := Nat.mul_le_mul_right _ (by omega)
      _ = (v + 1) * 10 ^ (cs.length + 1) := by rw [Nat.pow_succ]; ring

theorem decimal_value_lt (ds : List Char) (hds : ∀ c ∈ ds, is_digit c = true) :
    decimal_value ds < 10 ^ ds.length := by
  have := decimal_value_aux ds hds 0
  simpa [decimal_value] using this

theorem minutes_fixed6_lt (m1 m2 : Char) (frac : List Char) (h1 : is_digit m1 = true)
    (h2 : is_digit m2 = true) (hf : ∀ c ∈ frac, is_digit c = true) :
    minutes_fixed6 m1 m2 frac < 100000000 := by
  have ha := decimal_value_lt [m1, m2] (by
    intro c hc
    simp only [List.mem_cons, List.mem_singleton, List.not_mem_nil, or_false] at hc
    rcases hc with rfl | rfl
    · exact h1
    · exact h2)
  have hb := decimal_value_lt ((frac ++ List.replicate 6 '0').take 6) (by
    intro c hc
    have hc2 := List.mem_of_mem_take hc
    rcases List.mem_append.1 hc2 with h | h
    · exact hf c h
    · rw [(List.mem_replicate.1 h).2]; decide)
  have hl : ((frac ++ List.replicate 6 '0').take 6).length = 6 := by
    simp
  rw [hl] at hb
  simp only [List.length_cons, List.length_nil] at ha
  unfold minutes_fixed6
  omega

theorem strcspn_angle (deg frac : List Char) (m1 m2 : Char)
    (hdeg : ∀ c ∈ deg, is_digit c = true) (h1 : is_digit m1 = true) (h2 : is_digit m2 = true) :
    strcspn (deg ++ m1 :: m2 :: '.' :: frac) ['.'] = deg.length + 2 := by
  have hne : ∀ c : Char, is_digit c = true → c ≠ '.' := by
    intro c hc hcd
    subst hcd
    simp [is_digit] at hc
  unfold strcspn
  have e : deg ++ m1 :: m2 :: '.' :: frac = (deg ++ [m1, m2]) ++ '.' :: frac := by simp
  rw [e, List.takeWhile_append_of_pos]
  · simp
  · intro c hc
    simp only [List.mem_append, List.mem_cons, List.mem_singleton, List.not_mem_nil, or_false] at hc
    have : c ≠ '.' := by
      rcases hc with h | rfl | rfl
      · exact hne c (hdeg c h)
      · exact hne _ h1
      · exact hne _ h2
    simp [this]

theorem as_long_of_nonneg (long_bits : Nat) (x : Int) (h0 : 0 ≤ x)
    (h : x < (2 : Int) ^ (long_bits - 1)) : as_long long_bits x = some x := by
  unfold as_long
  have hp : (0 : Int) < (2 : Int) ^ (long_bits - 1) := by positivity
  rw [if_pos ⟨by omega, h⟩]

theorem as_long_neg (long_bits : Nat) (x : Int) (h0 : 0 ≤ x)
    (h : x < (2 : Int) ^ (long_bits - 1)) : as_long long_bits (x * -1) = some (-x) := by
  unfold as_long
  rw [if_pos ⟨by omega, by omega⟩]
  simp

/-- C8, as amended: for every position whose angle string is degree digits,
two minute digits, a `.` and fraction digits, and whose microdegrees fit the
type `long` (of at least 32 bits), `nmea_decode_position` returns 0 and stores
degrees * 1000000 + floor(m / 60), where m is the minutes value as a fixed
point number with six decimals; the value is negated when the direction
starts with `S` or `W`, and stored as it is else (`N`, `E`).  The routines
`std_strtolb` and `std_strtodfp` are parameters, of which only this is used:
they convert the degree digits to their decimal value, consuming all of them,
and the minutes to m. -/
theorem nmea_decode_position_value
    (std_strtolb std_strtodfp : List Char → Nat → Option (Int × Nat)) (long_bits : Nat)
    (deg frac dir : List Char) (m1 m2 : Char) (k : Nat)
    (hdeg : ∀ c ∈ deg, is_digit c = true) (h1 : is_digit m1 = true) (h2 : is_digit m2 = true)
    (hfrac : ∀ c ∈ frac, is_digit c = true)
    (hlb : std_strtolb deg 10 = some ((decimal_value deg : Int), deg.length))
    (hdfp : std_strtodfp (m1 :: m2 :: '.' :: frac) 6
      = some ((minutes_fixed6 m1 m2 frac : Int), k))
    (h32 : 32 ≤ long_bits)
    (hfit : (microdegrees deg m1 m2 frac : Int) < (2 : Int) ^ (long_bits - 1)) :
    nmea_decode_position std_strtolb std_strtodfp long_bits
        ⟨deg ++ m1 :: m2 :: '.' :: frac, dir⟩
      = some (ssize_t.val 0,
          some (if dir.head? = some 'S' ∨ dir.head? = some 'W'
            then -(microdegrees deg m1 m2 frac : Int)
            else (microdegrees deg m1 m2 frac : Int))) := by
  have hpos := strcspn_angle deg frac m1 m2 hdeg h1 h2
  have hget : (deg ++ m1 :: m2 :: '.' :: frac).getD (deg.length + 2) '\x00' = '.' := by
    have := List.getD_append_right deg (m1 :: m2 :: '.' :: frac) '\x00' (deg.length + 2)
      (by omega)
    simpa using this
  have hdrop : (deg ++ m1 :: m2 :: '.' :: frac).drop deg.length = m1 :: m2 :: '.' :: frac := by
    simp
  have htake : (deg ++ m1 :: m2 :: '.' :: frac).take deg.length = deg := by
    simp
  have hmin := minutes_fixed6_lt m1 m2 frac h1 h2 hfrac
  have hpow : (2147483648 : Int) ≤ (2 : Int) ^ (long_bits - 1) := by
    have h := pow_le_pow_right₀ (a := (2 : Int)) (by norm_num) (show 31 ≤ long_bits - 1 by omega)
    norm_num at h
    exact h
  have hmicro : microdegrees deg m1 m2 frac
      = decimal_value deg * 1000000 + minutes_fixed6 m1 m2 frac / 60 := rfl
  have hfit2 : ((decimal_value deg * 1000000 + minutes_fixed6 m1 m2 frac / 60 : Nat) : Int)
      < (2 : Int) ^ (long_bits - 1) := by rw [← hmicro]; exact hfit
  have a1 : as_long long_bits (decimal_value deg : Int) = some (decimal_value deg : Int) :=
    as_long_of_nonneg _ _ (by positivity) (by push_cast at hfit2; omega)
  have a2 : as_long long_bits (minutes_fixed6 m1 m2 frac : Int)
      = some (minutes_fixed6 m1 m2 frac : Int) :=
    as_long_of_nonneg _ _ (Int.natCast_nonneg _) (by omega)
  have a3 : as_long long_bits ((decimal_value deg : Int) * 1000000)
      = some ((decimal_value deg : Int) * 1000000) :=
    as_long_of_nonneg _ _ (by positivity) (by push_cast at hfit2; omega)
  have e4 : (decimal_value deg : Int) * 1000000 + Int.tdiv (minutes_fixed6 m1 m2 frac : Int) 60
      = (microdegrees deg m1 m2 frac : Int) := by
    rw [hmicro]
    have : Int.tdiv (minutes_fixed6 m1 m2 frac : Int) 60
        = ((minutes_fixed6 m1 m2 frac / 60 : Nat) : Int) := (Int.ofNat_tdiv _ 60).symm
    rw [this]
    push_cast
    rfl
  have a4 : as_long long_bits (microdegrees deg m1 m2 frac : Int)
      = some (microdegrees deg m1 m2 frac : Int) :=
    as_long_of_nonneg _ _ (Int.natCast_nonneg _) hfit
  have a5 : as_long long_bits ((microdegrees deg m1 m2 frac : Int) * -1)
      = some (-(microdegrees deg m1 m2 frac : Int)) :=
    as_long_neg _ _ (Int.natCast_nonneg _) hfit
  have hdir : (dir.getD 0 '\x00' = 'S' ∨ dir.getD 0 '\x00' = 'W')
      ↔ (dir.head? = some 'S' ∨ dir.head? = some 'W') := by
    cases dir with
    | nil => simp
    | cons d ds => simp
  unfold nmea_decode_position
  simp only [hpos, hget, size_minus]
  rw [if_neg (by decide), if_pos (by omega)]
  simp only [Nat.add_sub_cancel, hdrop, htake, hdfp, hlb]
  rw [if_neg (by simp)]
  simp only [a1, a2, a3, e4, a4]
  by_cases hd : dir.head? = some 'S' ∨ dir.head? = some 'W'
  · rw [if_pos (hdir.2 hd), if_pos hd, a5]
  · rw [if_neg (fun h => hd (hdir.1 h)), if_neg hd]

theorem nmea_decode_position_value_witness :
    nmea_decode_position strtolb_digits strtodfp_digits 32 ⟨"4807.038".toList, "N".toList⟩
      = some (ssize_t.val 0, some 48117300) ∧
    nmea_decode_position strtolb_digits strtodfp_digits 32 ⟨"01131.000".toList, "E".toList⟩
      = some (ssize_t.val 0, some 11516666) ∧
    nmea_decode_position strtolb_digits strtodfp_digits 32 ⟨"01131.000".toList, "W".toList⟩
      = some (ssize_t.val 0, some (-11516666)) :=
  ⟨nmea_decode_position_value strtolb_digits strtodfp_digits 32
      "48".toList "038".toList "N".toList '0' '7' 6
      (by decide) (by decide) (by decide) (by decide) (by rfl) (by rfl) (by decide) (by decide),
   nmea_decode_position_value strtolb_digits strtodfp_digits 32
      "011".toList "000".toList "E".toList '3' '1' 6
      (by decide) (by decide) (by decide) (by decide) (by rfl) (by rfl) (by decide) (by decide),
   nmea_decode_position_value strtolb_digits strtodfp_digits 32
      "011".toList "000".toList "W".toList '3' '1' 6
      (by decide) (by decide) (by decide) (by decide) (by rfl) (by rfl) (by decide) (by decide)⟩

/-- C8, the claim as stated, fails for an angle with many degree digits: the
value degrees * 1000000 + floor(m / 60) does not fit the type `long`, and the
multiplication in `nmea_decode_position` overflows.  With a `long` of 64 bits
this happens for the angle `1000000000000000.0` (10^13 degrees), with a `long`
of 32 bits already for `300000.000` (3000 degrees). -/
theorem nmea_decode_position_overflow :
    (is_digit '0' = true ∧ (∀ c ∈ "10000000000000".toList, is_digit c = true) ∧
      nmea_decode_position strtolb_digits strtodfp_digits 64
          ⟨"1000000000000000.0".toList, "N".toList⟩
        ≠ some (ssize_t.val 0,
            some (microdegrees "10000000000000".toList '0' '0' "0".toList : Int)) ∧
      as_long 64 (microdegrees "10000000000000".toList '0' '0' "0".toList : Int) = none) ∧
    (nmea_decode_position strtolb_digits strtodfp_digits 32
          ⟨"300000.000".toList, "N".toList⟩
        ≠ some (ssize_t.val 0, some (microdegrees "3000".toList '0' '0' "000".toList : Int)) ∧
      as_long 32 (microdegrees "3000".toList '0' '0' "000".toList : Int) = none) := by
  refine ⟨⟨by decide, by decide, ?_, by rfl⟩, ?_, by rfl⟩
  · have : nmea_decode_position strtolb_digits strtodfp_digits 64
        ⟨"1000000000000000.0".toList, "N".toList⟩ = none := by rfl
    rw [this]
    exact fun h => nomatch h
  · have : nmea_decode_position strtolb_digits strtodfp_digits 32
        ⟨"300000.000".toList, "N".toList⟩ = none := by rfl
    rw [this]
    exact fun h => nomatch h

end Nmea

namespace SocketStub

/-! ## The queue of the specification -/

theorem mod_ne_of_lt (cap rd i n : Nat) (hi : i < n) (hn : n < cap) :
    (rd + i) % cap ≠ (rd + n) % cap := by
  intro h
  have h1 : (rd + i) ≡ (rd + n) [MOD cap] := h
  have h2 : i ≡ n [MOD cap] := Nat.ModEq.add_left_cancel' rd h1
  have h3 : cap ∣ n - i := (Nat.modEq_iff_dvd' (by omega)).1 h2
  have h4 := Nat.le_of_dvd (by omega) h3
  omega

theorem queue_put_spec (q : queue_t) (b : Char) (hwf : queue_wf q) (hroom : q.count < q.capacity) :
    queue_wf (queue_put q b) ∧ queue_contents (queue_put q b) = queue_contents q ++ [b] ∧
      (queue_put q b).count = q.count + 1 ∧ (queue_put q b).capacity = q.capacity ∧
      (queue_put q b).stopped = q.stopped := by
  obtain ⟨hlen, hcap, hrd, hcnt, hwr⟩ := hwf
  refine ⟨⟨?_, hcap, hrd, ?_, ?_⟩, ?_, rfl, rfl, rfl⟩
  · simp [queue_put, hlen]
  · simp only [queue_put]; omega
  · simp only [queue_put]
    rw [hwr, Nat.mod_add_mod, Nat.add_assoc]
  · simp only [queue_contents, queue_put, List.range_succ, List.map_append, List.map_cons,
      List.map_nil]
    congr 1
    · apply List.map_congr_left
      intro i hi
      have hi2 : i < q.count := List.mem_range.1 hi
      have hne : q.write_cursor ≠ (q.read_cursor + i) % q.capacity := by
        rw [hwr]
        exact (mod_ne_of_lt q.capacity q.read_cursor i q.count hi2 hroom).symm
      simp [List.getElem?_set, hne]
    · have hlt : q.write_cursor < q.buffer.length := by
        rw [hwr, hlen]; exact Nat.mod_lt _ hcap
      simp [← hwr, List.getElem?_set, hlt]

theorem queue_put_all_spec (bs : List Char) :
    ∀ (q : queue_t), queue_wf q → q.count + bs.length ≤ q.capacity →
      queue_wf (queue_put_all q bs) ∧
      queue_contents (queue_put_all q bs) = queue_contents q ++ bs ∧
      (queue_put_all q bs).count = q.count + bs.length ∧
      (queue_put_all q bs).capacity = q.capacity ∧
      (queue_put_all q bs).stopped = q.stopped := by
  induction bs with
  | nil => intro q hwf _; simp [queue_put_all, hwf]
  | cons b bs ih =>
    intro q hwf hroom
    simp only [List.length_cons] at hroom
    obtain ⟨h1, h2, h3, h4, h5⟩ := queue_put_spec q b hwf (by omega)
    obtain ⟨g1, g2, g3, g4, g5⟩ := ih (queue_put q b) h1 (by rw [h3, h4]; omega)
    simp only [queue_put_all]
    refine ⟨g1, ?_, ?_, ?_, ?_⟩
    · rw [g2, h2]; simp
    · rw [g3, h3]; simp; omega
    · rw [g4, h4]
    · rw [g5, h5]

theorem queue_get_spec (q : queue_t) (hwf : queue_wf q) (hne : 0 < q.count) :
    queue_wf (queue_get q).2 ∧
      queue_contents q = (queue_get q).1 :: queue_contents (queue_get q).2 ∧
      (queue_get q).2.count = q.count - 1 := by
  obtain ⟨hlen, hcap, hrd, hcnt, hwr⟩ := hwf
  obtain ⟨n, hn⟩ : ∃ n, q.count = n + 1 := ⟨q.count - 1, by omega⟩
  refine ⟨⟨hlen, hcap, Nat.mod_lt _ hcap, ?_, ?_⟩, ?_, rfl⟩
  · simp only [queue_get]; omega
  · simp only [queue_get]
    rw [hwr, Nat.mod_add_mod, hn]
    congr 1
    omega
  · simp only [queue_contents, queue_get, hn, Nat.add_sub_cancel, List.range_succ_eq_map,
      List.map_cons, List.map_map, Nat.add_zero, Nat.mod_eq_of_lt hrd]
    congr 1
    apply List.map_congr_left
    intro i _
    simp only [Function.comp, Nat.succ_eq_add_one, Nat.mod_add_mod]
    congr 2
    omega

theorem queue_get_n_spec (n : Nat) :
    ∀ (q : queue_t), queue_wf q → n ≤ q.count →
      queue_wf (queue_get_n q n).2 ∧
      (queue_get_n q n).1 = (queue_contents q).take n ∧
      queue_contents (queue_get_n q n).2 = (queue_contents q).drop n ∧
      (queue_get_n q n).2.count = q.count - n := by
  induction n with
  | zero => intro q hwf _; simp [queue_get_n, hwf]
  | succ m ih =>
    intro q hwf hn
    obtain ⟨h1, h2, h3⟩ := queue_get_spec q hwf (by omega)
    obtain ⟨g1, g2, g3, g4⟩ := ih (queue_get q).2 h1 (by rw [h3]; omega)
    simp only [queue_get_n]
    refine ⟨g1, ?_, ?_, ?_⟩
    · rw [g2, h2]; simp
    · rw [g3, h2]; simp
    · rw [g4, h3]; omega

/-- C10: `socket_read` and `socket_recvfrom` return exactly what `queue_read`
on the input queue returns (the value and the bytes, or no return at all),
and `socket_write` and `socket_sendto` return exactly what `chan_write` on the
output queue returns, for every queue and channel implementation and every
value they return. -/
theorem socket_forwarding {Q E : Type}
    (queue_read : Q → Nat → Option (Int × List Char × Q))
    (chan_write : Q → List Char → Option (Int × Q))
    (st : stub_t Q E) (buf : List Char) (size : Nat) :
    (socket_read queue_read st size).map (fun r => (r.1, r.2.1))
        = (queue_read st.qinput size).map (fun r => (r.1, r.2.1)) ∧
    (socket_recvfrom queue_read st size).map (fun r => (r.1, r.2.1))
        = (queue_read st.qinput size).map (fun r => (r.1, r.2.1)) ∧
    (socket_write chan_write st buf).map (fun r => r.1)
        = (chan_write st.qoutput buf).map (fun r => r.1) ∧
    (socket_sendto chan_write st buf).map (fun r => r.1)
        = (chan_write st.qoutput buf).map (fun r => r.1) := by
  refine ⟨?_, ?_, ?_, ?_⟩
  · unfold socket_read read
    cases queue_read st.qinput size <;> rfl
  · unfold socket_recvfrom read
    cases queue_read st.qinput size <;> rfl
  · unfold socket_write write
    cases chan_write st.qoutput buf <;> rfl
  · unfold socket_sendto write
    cases chan_write st.qoutput buf <;> rfl

/-! ## Events, queue control and the channel of the stub -/

/-- C11: in a state where the closed event holds no other bit than 0x1 (the
only bit the stub ever writes, and `socket_close` keeps it so), after
`socket_close` the call of `socket_stub_wait_closed` returns and consumes the
bit: the signal of the closed event is 0 afterwards, and a second
`socket_stub_wait_closed` does not return. -/
theorem socket_close_wait_closed {Q : Type} (st : stub_t Q event_t)
    (h : st.closed_events.signal ≤ 1) :
    (socket_close event_write st).1 = 0 ∧
    (socket_close event_write st).2.closed_events.signal = 1 ∧
    ∃ st2, socket_stub_wait_closed event_read (socket_close event_write st).2 = some st2 ∧
      st2.closed_events.signal = 0 ∧
      socket_stub_wait_closed event_read st2 = none := by
  obtain ⟨qi, qo, ae, ⟨s⟩⟩ := st
  simp only at h
  refine ⟨rfl, ?_,
    { qinput := qi, qoutput := qo, accept_events := ae, closed_events := ⟨0⟩ }, ?_, rfl, ?_⟩
  · interval_cases s <;> simp [socket_close, event_write]
  · interval_cases s <;>
      simp [socket_stub_wait_closed, socket_close, event_read, event_write]
  · simp [socket_stub_wait_closed, event_read]

theorem socket_close_wait_closed_witness :
    fresh_event_stub.closed_events.signal ≤ 1 ∧
    ∃ st2, socket_stub_wait_closed event_read
        (socket_close event_write fresh_event_stub).2 = some st2 ∧
      st2.closed_events.signal = 0 ∧
      socket_stub_wait_closed event_read st2 = none :=
  ⟨by decide, (socket_close_wait_closed fresh_event_stub (by decide)).2.2⟩

theorem queue_get_n_stopped (n : Nat) :
    ∀ (q : queue_t), (queue_get_n q n).2.stopped = q.stopped := by
  induction n with
  | zero => intro q; rfl
  | succ m ih =>
    intro q
    simp only [queue_get_n]
    rw [ih]
    rfl

theorem queue_contents_length (q : queue_t) : (queue_contents q).length = q.count := by
  simp [queue_contents]

theorem queue_read_all (q : queue_t) (hwf : queue_wf q) (hne : 0 < q.count)
    (hrun : q.stopped = false) :
    ∃ q2, queue_read q q.count = some ((q.count : Int), queue_contents q, q2) ∧
      q2.count = 0 ∧ q2.stopped = false := by
  obtain ⟨_, g2, _, g4⟩ := queue_get_n_spec q.count q hwf (Nat.le_refl _)
  refine ⟨(queue_get_n q q.count).2, ?_, by rw [g4]; simp, by rw [queue_get_n_stopped, hrun]⟩
  unfold queue_read
  rw [if_neg (by omega)]
  simp only [Nat.min_self]
  rw [g2, ← queue_contents_length q, List.take_length]

theorem queue_read_empty (q : queue_t) (hempty : q.count = 0) (hrun : q.stopped = false)
    (k : Nat) : queue_read q k = none := by
  unfold queue_read
  rw [if_pos hempty, hrun]
  rfl

/-- C12: `socket_stub_close_connection` leaves the bytes buffered in the
input queue unchanged and leaves the queue started: the bytes buffered before
the call are returned, in order, by a later `socket_read`, and a read on the
then empty queue blocks instead of returning end-of-stream. -/
theorem socket_stub_close_connection_frame {E : Type} (st : stub_t queue_t E)
    (hwf : queue_wf st.qinput) :
    queue_contents (socket_stub_close_connection queue_stop queue_start st).qinput
        = queue_contents st.qinput ∧
    (socket_stub_close_connection queue_stop queue_start st).qinput.stopped = false ∧
    (0 < st.qinput.count →
      ∃ st2, socket_read queue_read (socket_stub_close_connection queue_stop queue_start st)
          st.qinput.count
          = some ((st.qinput.count : Int), queue_contents st.qinput, st2) ∧
        ∀ k, socket_read queue_read st2 k = none) ∧
    (st.qinput.count = 0 →
      ∀ k, socket_read queue_read (socket_stub_close_connection queue_stop queue_start st) k
        = none) := by
  have hwf1 : queue_wf (queue_start (queue_stop st.qinput)) := hwf
  refine ⟨rfl, rfl, ?_, ?_⟩
  · intro hne
    obtain ⟨q2, hr, hc, hs⟩ := queue_read_all (queue_start (queue_stop st.qinput)) hwf1 hne rfl
    refine ⟨{ socket_stub_close_connection queue_stop queue_start st with qinput := q2 }, ?_, ?_⟩
    · simp only [socket_read, read, socket_stub_close_connection]
      have hr2 : queue_read (queue_start (queue_stop st.qinput)) st.qinput.count
          = some ((st.qinput.count : Int), queue_contents st.qinput, q2) := hr
      rw [hr2]
    · intro k
      simp only [socket_read, read, queue_read_empty q2 hc hs k]
  · intro hempty k
    simp only [socket_read, read, socket_stub_close_connection]
    rw [queue_read_empty (queue_start (queue_stop st.qinput)) hempty rfl k]

/-- C13: the `size` operation bound into the channel of a stub socket by
`socket_open_tcp` and by `socket_accept` returns 0 in every state of the
stub, for every queue implementation and so for every number of bytes
waiting in the input queue. -/
theorem socket_chan_size_zero {Q E : Type}
    (queue_read : Q → Nat → Option (Int × List Char × Q))
    (chan_write : Q → List Char → Option (Int × Q))
    (event_read : E → Nat → Option (Nat × E)) (st0 st : stub_t Q E) :
    chan_size (socket_open_tcp queue_read chan_write).2.base st = 0 ∧
    chan_size (socket_accept queue_read chan_write event_read st0).1.base st = 0 := by
  exact ⟨rfl, rfl⟩

set_option maxRecDepth 100000 in
theorem socket_stub_close_connection_frame_witness :
    socket_stub_input chan_write fresh_stub "GET /".toList = some stub_with_input ∧
    queue_wf stub_with_input.qinput ∧
    ∃ st2, socket_read queue_read
        (socket_stub_close_connection queue_stop queue_start stub_with_input) 5
        = some (5, "GET /".toList, st2) ∧
      ∀ k, socket_read queue_read st2 k = none :=
  ⟨by rfl, by decide,
   (socket_stub_close_connection_frame stub_with_input (by decide)).2.2.1 (by decide)⟩

/-! ## Writes from interrupt context and reads of whole objects -/

theorem queue_write_isr_fits (q : queue_t) (src : List Char) (hwf : queue_wf q)
    (hroom : q.count + src.length ≤ q.capacity) :
    (queue_write_isr q src).1 = (src.length : Int) ∧
    queue_wf (queue_write_isr q src).2 ∧
    queue_contents (queue_write_isr q src).2 = queue_contents q ++ src ∧
    (queue_write_isr q src).2.count = q.count + src.length ∧
    (queue_write_isr q src).2.capacity = q.capacity := by
  have hmin : min src.length (q.capacity - q.count) = src.length := by omega
  obtain ⟨h1, h2, h3, h4, _⟩ := queue_put_all_spec src q hwf hroom
  simp only [queue_write_isr, hmin, List.take_length]
  exact ⟨trivial, h1, h2, h3, h4⟩

theorem queue_read_some (q : queue_t) (n : Nat) (hwf : queue_wf q) (hn : n ≤ q.count)
    (hpos : 0 < n) :
    ∃ q1, queue_read q n = some ((n : Int), (queue_contents q).take n, q1) ∧ queue_wf q1 ∧
      queue_contents q1 = (queue_contents q).drop n ∧ q1.count = q.count - n := by
  obtain ⟨g1, g2, g3, g4⟩ := queue_get_n_spec n q hwf hn
  refine ⟨(queue_get_n q n).2, ?_, g1, g3, g4⟩
  unfold queue_read
  rw [if_neg (by omega)]
  simp only [Nat.min_eq_left hn]
  rw [g2]

end SocketStub

namespace SignalAnalyzer

/-! ## The signal analyzer -/

theorem sample_pins_eq (pin_device_read : Nat → Int) (pins : List pwm_pin_t) :
    sample_pins pin_device_read pins
      = (pins.map (sample_pin pin_device_read),
         pins.map fun pin => kernel_call_t.pin_device_read pin.pin_device_p) := by
  induction pins with
  | nil => rfl
  | cons pin pins ih => simp only [sample_pins, ih, List.map_cons]

theorem report_pins_calls {Q : Type} (queue_write_isr : Q → List Char → Int × Q)
    (pins : List pwm_pin_t) :
    ∀ (q : Q),
      (report_pins queue_write_isr q pins).2.1
        = pins.map (fun pin =>
            { pin with report := { high_count := 0, low_count := 0, rising_count := 0 } }) ∧
      (report_pins queue_write_isr q pins).2.2.filterMap written
        = pins.map (fun pin => report_bytes pin.report) ∧
      ∀ c ∈ (report_pins queue_write_isr q pins).2.2,
        ∃ src res, c = kernel_call_t.queue_write_isr src res := by
  induction pins with
  | nil => intro q; simp [report_pins]
  | cons pin pins ih =>
    intro q
    obtain ⟨h1, h2, h3⟩ := ih (queue_write_isr q (report_bytes pin.report)).2
    refine ⟨?_, ?_, ?_⟩
    · simp only [report_pins, List.map_cons, h1]
    · simp only [report_pins, List.filterMap_cons, written, List.map_cons, h2]
    · intro c hc
      simp only [report_pins, List.mem_cons] at hc
      rcases hc with rfl | hc
      · exact ⟨_, _, rfl⟩
      · exact h3 c hc

theorem report_pins_queue {Q : Type} (queue_write_isr : Q → List Char → Int × Q)
    (pins : List pwm_pin_t) :
    ∀ (q : Q),
      (report_pins queue_write_isr q pins).1
        = (pins.map fun pin => report_bytes pin.report).foldl
            (fun q src => (queue_write_isr q src).2) q ∧
      (report_pins queue_write_isr q pins).2.2.length = pins.length := by
  induction pins with
  | nil => intro q; exact ⟨rfl, rfl⟩
  | cons pin pins ih =>
    intro q
    obtain ⟨h1, h2⟩ := ih (queue_write_isr q (report_bytes pin.report)).2
    refine ⟨?_, ?_⟩
    · simp only [report_pins, List.map_cons, List.foldl_cons, h1]
    · simp only [report_pins, List.length_cons, h2]

/-- C14: `sample_timeout` never makes a call that can suspend the caller:
every call it makes is a `pin_device_read` or a `queue_write_isr`, so that
`queue_write_isr` is its only queue operation, and it calls neither
`queue_read`, `queue_write` nor an event wait. -/
theorem sample_timeout_isr_safe {Q : Type} (pin_device_read : Nat → Int)
    (queue_write_isr : Q → List Char → Int × Q) (module : module_t Q) :
    ∀ c ∈ (sample_timeout pin_device_read queue_write_isr module).2,
      may_suspend c = false ∧
      ((∃ p, c = kernel_call_t.pin_device_read p) ∨
        ∃ src res, c = kernel_call_t.queue_write_isr src res) ∧
      (∀ size, c ≠ kernel_call_t.queue_read size) ∧
      (∀ src, c ≠ kernel_call_t.queue_write src) ∧
      (∀ mask, c ≠ kernel_call_t.event_read mask) := by
  have key : ∀ c ∈ (sample_timeout pin_device_read queue_write_isr module).2,
      (∃ p, c = kernel_call_t.pin_device_read p) ∨
        ∃ src res, c = kernel_call_t.queue_write_isr src res := by
    intro c hc
    unfold sample_timeout at hc
    simp only [sample_pins_eq] at hc
    split at hc
    · simp only [List.mem_append, List.mem_map, List.mem_cons] at hc
      rcases hc with ⟨pin, _, rfl⟩ | rfl | hc
      · exact Or.inl ⟨_, rfl⟩
      · exact Or.inr ⟨_, _, rfl⟩
      · exact Or.inr ((report_pins_calls queue_write_isr _ _).2.2 c hc)
    · simp only [List.mem_map] at hc
      obtain ⟨pin, _, rfl⟩ := hc
      exact Or.inl ⟨_, rfl⟩
  intro c hc
  rcases key c hc with ⟨p, rfl⟩ | ⟨src, res, rfl⟩
  · refine ⟨rfl, Or.inl ⟨_, rfl⟩, ?_, ?_, ?_⟩ <;> intro _ h <;> cases h
  · refine ⟨rfl, Or.inr ⟨_, _, rfl⟩, ?_, ?_, ?_⟩ <;> intro _ h <;> cases h

set_option maxRecDepth 100000 in
theorem sample_timeout_isr_safe_witness :
    kernel_call_t.queue_write_isr (u32_bytes 20) 4
        ∈ (sample_timeout (example_levels 19) SocketStub.queue_write_isr example_module).2 ∧
    may_suspend (kernel_call_t.queue_write_isr (u32_bytes 20) 4) = false ∧
    ∀ size, kernel_call_t.queue_write_isr (u32_bytes 20) 4 ≠ kernel_call_t.queue_read size :=
  ⟨by decide,
   (sample_timeout_isr_safe (example_levels 19) SocketStub.queue_write_isr example_module
      (kernel_call_t.queue_write_isr (u32_bytes 20) 4) (by decide)).1,
   (sample_timeout_isr_safe (example_levels 19) SocketStub.queue_write_isr example_module
      (kernel_call_t.queue_write_isr (u32_bytes 20) 4) (by decide)).2.2.1⟩

theorem u32_bytes_length (v : Nat) : (u32_bytes v).length = 4 := rfl

theorem report_bytes_length (r : report_t) : (report_bytes r).length = 12 := rfl

theorem reports_flatten_length (rs : List (List Char)) (h : ∀ r ∈ rs, r.length = 12) :
    rs.flatten.length = 12 * rs.length := by
  induction rs with
  | nil => rfl
  | cons r rs ih =>
    have h1 := h r (by simp)
    have h2 := ih (fun x hx => h x (by simp [hx]))
    simp only [List.flatten_cons, List.length_append, List.length_cons, h1, h2]
    omega

/-- C15: `sample_timeout` writes to the queue exactly on the calls where the
incremented `timeout_count` is a multiple of 20.  On such a call its
`queue_write_isr` calls pass the 4 bytes of `timeout_count` and then the 12
bytes of the report of every pin, in pin-index order (100 bytes in all for
the 8 pins), the queue afterwards is the queue of the module with these
writes made on it one after the other, and afterwards every pin has its three
counters at 0; on every other call it makes no `queue_write_isr` call, keeps
the counters as counted and leaves the queue as it is. -/
theorem sample_timeout_report {Q : Type} (pin_device_read : Nat → Int)
    (queue_write_isr : Q → List Char → Int × Q) (module : module_t Q) :
    (sample_timeout pin_device_read queue_write_isr module).1.timeout_count
        = (module.timeout_count + 1) % 4294967296 ∧
    ((module.timeout_count + 1) % 4294967296 % 20 = 0 →
      (sample_timeout pin_device_read queue_write_isr module).2.filterMap written
          = u32_bytes ((module.timeout_count + 1) % 4294967296)
            :: (module.pwm_pins.map (sample_pin pin_device_read)).map
                (fun pin => report_bytes pin.report) ∧
      (sample_timeout pin_device_read queue_write_isr module).1.queue
          = (u32_bytes ((module.timeout_count + 1) % 4294967296)
              :: (module.pwm_pins.map (sample_pin pin_device_read)).map
                  (fun pin => report_bytes pin.report)).foldl
              (fun q src => (queue_write_isr q src).2) module.queue ∧
      (module.pwm_pins.length = 8 →
        (((sample_timeout pin_device_read queue_write_isr module).2.filterMap
            written).flatten).length = 100) ∧
      (sample_timeout pin_device_read queue_write_isr module).1.pwm_pins
          = (module.pwm_pins.map (sample_pin pin_device_read)).map (fun pin =>
              { pin with report := { high_count := 0, low_count := 0, rising_count := 0 } })) ∧
    ((module.timeout_count + 1) % 4294967296 % 20 ≠ 0 →
      (sample_timeout pin_device_read queue_write_isr module).2.filterMap written = [] ∧
      (sample_timeout pin_device_read queue_write_isr module).1.pwm_pins
          = module.pwm_pins.map (sample_pin pin_device_read) ∧
      (sample_timeout pin_device_read queue_write_isr module).1.queue = module.queue) := by
  have hpins : (List.map (fun pin => kernel_call_t.pin_device_read pin.pin_device_p)
      module.pwm_pins).filterMap written = [] := by
    induction module.pwm_pins with
    | nil => rfl
    | cons pin pins ih => simp [written]
  refine ⟨?_, ?_, ?_⟩
  · unfold sample_timeout
    simp only []
    split <;> rfl
  · intro h20
    have hw : (sample_timeout pin_device_read queue_write_isr module).2.filterMap written
        = u32_bytes ((module.timeout_count + 1) % 4294967296)
          :: (module.pwm_pins.map (sample_pin pin_device_read)).map
              (fun pin => report_bytes pin.report) := by
      unfold sample_timeout
      simp only [sample_pins_eq, TIMEOUTS_PER_REPORT, h20, if_true, List.filterMap_append,
        hpins, List.nil_append, List.filterMap_cons, written,
        (report_pins_calls queue_write_isr _ _).2.1]
    refine ⟨hw, ?_, ?_, ?_⟩
    · unfold sample_timeout
      simp only [sample_pins_eq, TIMEOUTS_PER_REPORT, h20, if_true,
        (report_pins_queue queue_write_isr _ _).1, List.foldl_cons, List.map_map]
    · intro h8
      rw [hw, List.flatten_cons, List.length_append, u32_bytes_length,
        reports_flatten_length _ (by
          intro r hr
          simp only [List.mem_map] at hr
          obtain ⟨pin, _, rfl⟩ := hr
          rfl)]
      simp only [List.length_map, h8]
    · unfold sample_timeout
      simp only [sample_pins_eq, TIMEOUTS_PER_REPORT, h20, if_true,
        (report_pins_calls queue_write_isr _ _).1]
  · intro h20
    unfold sample_timeout
    simp only [sample_pins_eq, TIMEOUTS_PER_REPORT, h20, if_false, hpins, and_self]

set_option maxRecDepth 100000 in
theorem sample_timeout_report_witness :
    (example_module.timeout_count + 1) % 4294967296 % 20 = 0 ∧
    example_module.pwm_pins.length = 8 ∧
    example_module.queue.count = 0 ∧
    (((sample_timeout (example_levels 19) SocketStub.queue_write_isr example_module).2.filterMap
        written).flatten).length = 100 ∧
    (sample_timeout (example_levels 19) SocketStub.queue_write_isr example_module).2.filterMap
        written
      = u32_bytes 20 :: example_reports.map report_bytes ∧
    (sample_timeout (example_levels 19) SocketStub.queue_write_isr example_module).1.queue
      = (u32_bytes 20 :: example_reports.map report_bytes).foldl
          (fun q src => (SocketStub.queue_write_isr q src).2) example_module.queue ∧
    SocketStub.queue_contents
        (sample_timeout (example_levels 19) SocketStub.queue_write_isr example_module).1.queue
      = u32_bytes 20 ++ (example_reports.map report_bytes).flatten :=
  ⟨by decide, by decide, by decide,
   ((sample_timeout_report (example_levels 19) SocketStub.queue_write_isr example_module).2.1
      (by decide)).2.2.1 (by decide),
   ((sample_timeout_report (example_levels 19) SocketStub.queue_write_isr example_module).2.1
      (by decide)).1,
   ((sample_timeout_report (example_levels 19) SocketStub.queue_write_isr example_module).2.1
      (by decide)).2.1,
   by decide⟩

theorem report_pins_fits (pins : List pwm_pin_t) :
    ∀ (q : SocketStub.queue_t), SocketStub.queue_wf q → q.count + 12 * pins.length ≤ q.capacity →
      SocketStub.queue_wf (report_pins SocketStub.queue_write_isr q pins).1 ∧
      SocketStub.queue_contents (report_pins SocketStub.queue_write_isr q pins).1
        = SocketStub.queue_contents q ++ (pins.map fun pin => report_bytes pin.report).flatten ∧
      (report_pins SocketStub.queue_write_isr q pins).1.count = q.count + 12 * pins.length ∧
      ∀ src res, kernel_call_t.queue_write_isr src res
          ∈ (report_pins SocketStub.queue_write_isr q pins).2.2 → res = (src.length : Int) := by
  induction pins with
  | nil => intro q hwf _; simp [report_pins, hwf]
  | cons pin pins ih =>
    intro q hwf hroom
    simp only [List.length_cons] at hroom
    obtain ⟨w1, w2, w3, w4, w5⟩ := SocketStub.queue_write_isr_fits q (report_bytes pin.report) hwf
      (by rw [report_bytes_length]; omega)
    rw [report_bytes_length] at w4
    obtain ⟨g1, g2, g3, g4⟩ := ih (SocketStub.queue_write_isr q (report_bytes pin.report)).2 w2
      (by rw [w4, w5]; omega)
    refine ⟨g1, ?_, ?_, ?_⟩
    · simp only [report_pins, g2, w3, List.map_cons, List.flatten_cons, List.append_assoc]
    · simp only [report_pins, g3, w4, List.length_cons]
      omega
    · intro src res hc
      simp only [report_pins, List.mem_cons] at hc
      rcases hc with hc | hc
      · cases hc
        exact w1
      · exact g4 src res hc

/-- C17: a report is 100 bytes and the storage of the queue is 128 bytes: when
the queue is empty at a call of `sample_timeout` (the reader has consumed the
previous report), every `queue_write_isr` call of `sample_timeout` returns the
size it was asked to write, and on a call that reports the queue holds the
100 bytes of the report afterwards, none dropped. -/
theorem sample_timeout_no_drop (pin_device_read : Nat → Int) (module : module_t SocketStub.queue_t)
    (hwf : SocketStub.queue_wf module.queue) (hcap : module.queue.capacity = 128)
    (hempty : module.queue.count = 0) (h8 : module.pwm_pins.length = 8) :
    (∀ src res, kernel_call_t.queue_write_isr src res
        ∈ (sample_timeout pin_device_read SocketStub.queue_write_isr module).2 →
      res = (src.length : Int)) ∧
    SocketStub.queue_wf (sample_timeout pin_device_read SocketStub.queue_write_isr module).1.queue ∧
    ((module.timeout_count + 1) % 4294967296 % 20 = 0 →
      SocketStub.queue_contents (sample_timeout pin_device_read SocketStub.queue_write_isr module).1.queue
        = u32_bytes ((module.timeout_count + 1) % 4294967296)
          ++ ((module.pwm_pins.map (sample_pin pin_device_read)).map
                fun pin => report_bytes pin.report).flatten ∧
      (sample_timeout pin_device_read SocketStub.queue_write_isr module).1.queue.count = 100) := by
  have hcontents : SocketStub.queue_contents module.queue = [] := by simp [SocketStub.queue_contents, hempty]
  obtain ⟨w1, w2, w3, w4, w5⟩ := SocketStub.queue_write_isr_fits module.queue
    (u32_bytes ((module.timeout_count + 1) % 4294967296)) hwf
    (by rw [u32_bytes_length, hempty, hcap]; omega)
  rw [u32_bytes_length, hempty] at w4
  rw [hcontents, List.nil_append] at w3
  obtain ⟨g1, g2, g3, g4⟩ := report_pins_fits (module.pwm_pins.map (sample_pin pin_device_read))
    (SocketStub.queue_write_isr module.queue (u32_bytes ((module.timeout_count + 1) % 4294967296))).2 w2
    (by rw [w4, w5, hcap, List.length_map, h8]; decide)
  rw [List.length_map, h8, w4] at g3
  rw [w3] at g2
  by_cases h20 : (module.timeout_count + 1) % 4294967296 % 20 = 0
  · refine ⟨?_, ?_, fun _ => ⟨?_, ?_⟩⟩
    · intro src res hc
      unfold sample_timeout at hc
      simp only [sample_pins_eq, TIMEOUTS_PER_REPORT, h20, if_true, List.mem_append,
        List.mem_map, List.mem_cons] at hc
      rcases hc with ⟨pin, _, hp⟩ | hc | hc
      · cases hp
      · cases hc
        exact w1
      · exact g4 src res hc
    · unfold sample_timeout
      simp only [sample_pins_eq, TIMEOUTS_PER_REPORT, h20, if_true]
      exact g1
    · unfold sample_timeout
      simp only [sample_pins_eq, TIMEOUTS_PER_REPORT, h20, if_true]
      exact g2
    · unfold sample_timeout
      simp only [sample_pins_eq, TIMEOUTS_PER_REPORT, h20, if_true]
      exact g3
  · refine ⟨?_, ?_, fun h => absurd h h20⟩
    · intro src res hc
      unfold sample_timeout at hc
      simp only [sample_pins_eq, TIMEOUTS_PER_REPORT, h20, if_false, List.mem_map] at hc
      obtain ⟨pin, _, hp⟩ := hc
      cases hp
    · unfold sample_timeout
      simp only [sample_pins_eq, TIMEOUTS_PER_REPORT, h20, if_false]
      exact hwf

set_option maxRecDepth 100000 in
theorem sample_timeout_no_drop_witness :
    SocketStub.queue_wf example_module.queue ∧ example_module.queue.capacity = 128 ∧
    example_module.queue.count = 0 ∧ example_module.pwm_pins.length = 8 ∧
    (∀ src res, kernel_call_t.queue_write_isr src res
        ∈ (sample_timeout (example_levels 19) SocketStub.queue_write_isr example_module).2 →
      res = (src.length : Int)) ∧
    (sample_timeout (example_levels 19) SocketStub.queue_write_isr example_module).1.queue.count
      = 100 :=
  ⟨by decide, by decide, by decide, by decide,
   (sample_timeout_no_drop (example_levels 19) example_module (by decide) (by decide) (by decide)
      (by decide)).1,
   ((sample_timeout_no_drop (example_levels 19) example_module (by decide) (by decide) (by decide)
      (by decide)).2.2 (by decide)).2⟩

set_option maxRecDepth 100000 in
theorem char_toNat_ofNat : ∀ k, k < 256 → (Char.ofNat k).toNat = k := by
  decide

theorem u32_of_u32_bytes (v : Nat) (rest : List Char) (hv : v < 4294967296) :
    u32_of_bytes (u32_bytes v ++ rest) = v := by
  have h0 := char_toNat_ofNat (v % 256) (Nat.mod_lt _ (by norm_num))
  have h1 := char_toNat_ofNat (v / 256 % 256) (Nat.mod_lt _ (by norm_num))
  have h2 := char_toNat_ofNat (v / 65536 % 256) (Nat.mod_lt _ (by norm_num))
  have h3 := char_toNat_ofNat (v / 16777216 % 256) (Nat.mod_lt _ (by norm_num))
  simp only [u32_of_bytes, u32_bytes, List.cons_append, List.getD_cons_zero,
    List.getD_cons_succ, h0, h1, h2, h3]
  omega

theorem report_of_report_bytes (r : report_t) (rest : List Char) (hr : report_in_range r) :
    report_of_bytes (report_bytes r ++ rest) = r := by
  obtain ⟨h1, h2, h3⟩ := hr
  have e0 : report_bytes r ++ rest
      = u32_bytes r.high_count ++ (u32_bytes r.low_count ++ (u32_bytes r.rising_count ++ rest)) := by
    simp [report_bytes]
  have e1 : (report_bytes r ++ rest).drop 4
      = u32_bytes r.low_count ++ (u32_bytes r.rising_count ++ rest) := by
    rw [e0]; rfl
  have e2 : (report_bytes r ++ rest).drop 8 = u32_bytes r.rising_count ++ rest := by
    rw [e0]; rfl
  unfold report_of_bytes
  rw [e1, e2, e0, u32_of_u32_bytes _ _ h1, u32_of_u32_bytes _ _ h2, u32_of_u32_bytes _ _ h3]

theorem reports_of_reports_bytes (rs : List report_t) :
    ∀ (rest : List Char), (∀ r ∈ rs, report_in_range r) →
      reports_of_bytes rs.length ((rs.map report_bytes).flatten ++ rest) = rs := by
  induction rs with
  | nil => intro rest _; rfl
  | cons r rs ih =>
    intro rest h
    have e0 : ((r :: rs).map report_bytes).flatten ++ rest
        = report_bytes r ++ ((rs.map report_bytes).flatten ++ rest) := by
      simp
    have e1 : (report_bytes r ++ ((rs.map report_bytes).flatten ++ rest)).drop 12
        = (rs.map report_bytes).flatten ++ rest := by
      have := @List.drop_append _ (report_bytes r) ((rs.map report_bytes).flatten ++ rest) 0
      rw [report_bytes_length] at this
      exact this
    simp only [List.length_cons, reports_of_bytes]
    rw [e0, e1, report_of_report_bytes r _ (h r (by simp)),
      ih rest (fun x hx => h x (by simp [hx]))]

/-- C16: in an iteration of the read loop of `cmd_pwm_measure_cb` that finds
one whole report in the queue, the two `queue_read` calls consume exactly the
100 bytes of that report: the first yields the `timeout_count` written, the
second the eight pin reports in pin-index order, so that `reports[j]` holds
the counters of pin `j`, and the queue is empty afterwards. -/
theorem read_report_yields (q : SocketStub.queue_t) (time reports : List Char) (timeout_count : Nat)
    (pin_reports : List report_t) (hwf : SocketStub.queue_wf q)
    (htc : timeout_count < 4294967296) (h8 : pin_reports.length = 8)
    (hr : ∀ r ∈ pin_reports, report_in_range r)
    (hq : SocketStub.queue_contents q = u32_bytes timeout_count ++ (pin_reports.map report_bytes).flatten) :
    q.count = 100 ∧
    ∃ q2, read_report SocketStub.queue_read q time reports
        = some (timeout_count, pin_reports, q2,
            [kernel_call_t.queue_read 4, kernel_call_t.queue_read 96]) ∧
      q2.count = 0 := by
  have hflat : ((pin_reports.map report_bytes).flatten).length = 96 := by
    rw [reports_flatten_length _ (by
      intro r hr
      simp only [List.mem_map] at hr
      obtain ⟨x, _, rfl⟩ := hr
      rfl), List.length_map, h8]
  have hcount : q.count = 100 := by
    rw [← SocketStub.queue_contents_length, hq, List.length_append, u32_bytes_length, hflat]
  obtain ⟨q1, r1, wf1, c1, n1⟩ := SocketStub.queue_read_some q 4 hwf (by omega) (by omega)
  have t1 : (SocketStub.queue_contents q).take 4 = u32_bytes timeout_count := by
    rw [hq]
    exact List.take_left' (u32_bytes_length _)
  have d1 : (SocketStub.queue_contents q).drop 4 = (pin_reports.map report_bytes).flatten := by
    rw [hq]
    exact List.drop_left' (u32_bytes_length _)
  rw [t1] at r1
  rw [d1] at c1
  rw [hcount] at n1
  obtain ⟨q2, r2, _, _, n2⟩ := SocketStub.queue_read_some q1 96 wf1 (by omega) (by omega)
  have t2 : (SocketStub.queue_contents q1).take 96 = (pin_reports.map report_bytes).flatten := by
    rw [c1, ← hflat, List.take_length]
  rw [t2] at r2
  refine ⟨hcount, q2, ?_, by omega⟩
  unfold read_report
  rw [r1]
  simp only []
  rw [show 8 * 12 = 96 from rfl, r2]
  simp only []
  have o1 : u32_of_bytes (overlay time (u32_bytes timeout_count)) = timeout_count :=
    u32_of_u32_bytes _ _ htc
  have o2 : reports_of_bytes 8 (overlay reports (pin_reports.map report_bytes).flatten)
      = pin_reports := by
    have := reports_of_reports_bytes pin_reports
      (reports.drop ((pin_reports.map report_bytes).flatten).length) hr
    rw [h8] at this
    exact this
  rw [o1, o2]

set_option maxRecDepth 100000 in
theorem read_report_yields_witness :
    SocketStub.queue_contents
        (sample_timeout (example_levels 19) SocketStub.queue_write_isr example_module).1.queue
      = u32_bytes 20 ++ (example_reports.map report_bytes).flatten ∧
    ∃ q2, read_report SocketStub.queue_read
        (sample_timeout (example_levels 19) SocketStub.queue_write_isr example_module).1.queue
        [] []
        = some (20, example_reports, q2,
            [kernel_call_t.queue_read 4, kernel_call_t.queue_read 96]) ∧
      q2.count = 0 :=
  ⟨by decide,
   (read_report_yields
      (sample_timeout (example_levels 19) SocketStub.queue_write_isr example_module).1.queue
      [] [] 20 example_reports (by decide) (by decide) (by decide) (by decide)
      (by decide)).2⟩

end SignalAnalyzer
